import Mathlib

/-!
# Verification of the rlox tree-walking Lox interpreter

This file gives a shallow embedding, in Lean 4, of the parts of the rlox
source that the checked properties concern: the scanner (`src/scanner.rs`),
tokens (`src/token.rs`), the resolver (`src/resolver.rs`), the runtime value
domain (`src/object.rs`, `src/callable.rs`, `src/instance.rs`), the shared
environment chain (modelled as an explicit heap of scopes), and the
interpreter visitors that decide the properties (`src/interpreter.rs`).

Conventions of the embedding:

* The source tree mixes files from several revisions.  The embedding follows
  the revision that the newest files (`scanner.rs`, `token.rs`, `parser.rs`,
  `resolver.rs`, `callable.rs`, `instance.rs`) jointly determine.  In
  particular `TokenType` carries the scanner-minted identifier keys
  (`Identifier(key, name)`, `This(key)`, `Super(key)`), as `scanner.rs`
  constructs them, and `Stmt::Return` carries an optional value, as
  `parser.rs` builds it and `resolver.rs` consumes it.  Definitions whose
  current revision is absent from the tree are modelled from the spec and say
  so in their doc comment.
* Rust `f64` doubles are modelled by `F64`: NaN, signed infinities, and an
  exact rational payload for finite values.  This is adequate for every
  property at issue (IEEE equality including `NaN ≠ NaN`, the `!= 0.0` guard
  of division); rounding of arithmetic is not modelled.
* Rust panics (`panic!`, `unwrap`) are modelled by `Option`: a result of
  `none` is a panic.
* `Rc`-backed shared mutable state (environments, instance field maps) is
  modelled by indices into an explicit heap; `Rc::ptr_eq` becomes index
  equality.
* Recursions that Rust performs on possibly-cyclic heap data (`PartialEq` on
  instances) or on unboundedly growing state (the scan loop) take explicit
  fuel; exhausted fuel is `none`, which in Rust is divergence.
-/

namespace Rlox

/-! ## IEEE-754 doubles, as far as the program observes them -/

/-- Model of Rust `f64`: NaN, the two infinities, or an exact finite value.
The finite payload is an exact rational; `-0.0` is identified with `0.0`
(they compare equal in IEEE, which is all the program observes). -/
inductive F64 where
  | nan : F64
  | inf (negative : Bool) : F64
  | finite (q : ℚ) : F64
  deriving DecidableEq, Repr

namespace F64

/-- IEEE `==` on doubles: `NaN` is not equal to anything, including itself. -/
def beq : F64 → F64 → Bool
  | .nan, _ => false
  | _, .nan => false
  | .inf a, .inf b => a == b
  | .finite a, .finite b => a == b
  | _, _ => false

/-- The zero double. -/
def zero : F64 := .finite 0

/-- `self.is_nan()`. -/
def isNan : F64 → Bool
  | .nan => true
  | _ => false

/-- IEEE division, to the extent the program can reach it.  The interpreter
guards `/` with `right != 0.0`, so the finite/zero row is unreachable there;
it is still given a total value. -/
def div : F64 → F64 → F64
  | .nan, _ => .nan
  | _, .nan => .nan
  | .inf _, .inf _ => .nan
  | .inf a, .finite b => .inf (a != decide (b < 0))
  | .finite _, .inf _ => .finite 0
  | .finite a, .finite b =>
      if b = 0 then (if a = 0 then .nan else .inf (decide (a < 0)))
      else .finite (a / b)

/-- IEEE `<`: false whenever either side is NaN. -/
def lt : F64 → F64 → Bool
  | .nan, _ => false
  | _, .nan => false
  | .inf a, .inf b => a && !b
  | .inf a, .finite _ => a
  | .finite _, .inf b => !b
  | .finite a, .finite b => decide (a < b)

/-- IEEE `<=`: false whenever either side is NaN. -/
def le (a b : F64) : Bool := lt a b || beq a b

/-- IEEE negation. -/
def neg : F64 → F64
  | .nan => .nan
  | .inf a => .inf !a
  | .finite q => .finite (-q)

/-- IEEE addition on the model (finite sums are exact; rounding is not
modelled). -/
def add : F64 → F64 → F64
  | .nan, _ => .nan
  | _, .nan => .nan
  | .inf a, .inf b => if a == b then .inf a else .nan
  | .inf a, .finite _ => .inf a
  | .finite _, .inf b => .inf b
  | .finite a, .finite b => .finite (a + b)

/-- IEEE subtraction on the model. -/
def sub (a b : F64) : F64 := add a (neg b)

/-- IEEE multiplication on the model (finite products exact; the
zero-times-infinity rows give NaN). -/
def mul : F64 → F64 → F64
  | .nan, _ => .nan
  | _, .nan => .nan
  | .inf a, .inf b => .inf (a != b)
  | .inf a, .finite b => if b = 0 then .nan else .inf (a != decide (b < 0))
  | .finite a, .inf b => if a = 0 then .nan else .inf (b != decide (a < 0))
  | .finite a, .finite b => .finite (a * b)

end F64

/-! ## Tokens (`src/token.rs`, token kinds per `src/scanner.rs` and §3)

`src/token_type.rs` in the tree is from an earlier revision (its
`Identifier` has no key and `This`/`Super` carry none); the constructors
below are exactly the ones `scanner.rs` applies: `Identifier(key, name)`,
`This(key)`, `Super(key)`, `String(text)`, `Number(f64)`, and the plain
punctuation and keyword kinds. -/

inductive TokenType where
  | leftParen | rightParen | leftBrace | rightBrace
  | comma | dot | minus | plus | semicolon | slash | star
  | bang | bangEqual | equal | equalEqual
  | greater | greaterEqual | less | lessEqual
  | identifier (key : Nat) (name : String)
  | string (text : String)
  | number (value : F64)
  | and | classKw | elseKw | falseKw | fun' | forKw | ifKw | nil | or
  | print | return' | superKw (key : Nat) | thisKw (key : Nat)
  | trueKw | var | whileKw
  | endOfFile
  deriving DecidableEq, Repr

/-- Rust `#[derive(PartialEq)]` equality on `TokenType`: componentwise, with
the `f64` payload of `Number` compared by IEEE equality (so a NaN-carrying
token type is not equal to itself). -/
def TokenType.beqRust : TokenType → TokenType → Bool
  | .number a, .number b => F64.beq a b
  | .identifier k n, .identifier k2 n2 => k == k2 && n == n2
  | .string a, .string b => a == b
  | .superKw a, .superKw b => a == b
  | .thisKw a, .thisKw b => a == b
  | a, b => decide (a = b) && !(a matches .number _)

/-- `Token` (`src/token.rs`): kind, lexeme text, 1-based line. -/
structure Token where
  tokenType : TokenType
  lexeme : String
  line : Nat
  deriving DecidableEq, Repr

/-- `Token::to_name` (`src/token.rs` lines 15–22): returns the unique key and
name of an identifier-like token.  The source matches `Identifier` and `This`
only; every other kind — including `Super`, which the scanner also mints with
a key — hits `panic!("token is not an identifier")`, modelled as `none`. -/
def Token.toName : Token → Option (Nat × String)
  | ⟨.identifier key name, _, _⟩ => some (key, name)
  | ⟨.thisKw key, _, _⟩ => some (key, "this")
  | _ => none

/-! ## Error classes (`src/error.rs` as its callers use it)

`src/error.rs` in the tree is from an earlier revision (`ScanError`,
`ParseError`, `InterpretError`); every caller in the newest files
(`scanner.rs`, `parser.rs`, `resolver.rs`, `interpreter.rs`, `lox.rs`)
names the variants `Scan`, `Parse`, `Resolve`, `Interpret`, which is also
the §7 list.  Diagnostics are modelled as `(line, message)` pairs collected
in order instead of being printed to standard error. -/
inductive LoxError where
  | scan | parse | resolve | interpret
  deriving DecidableEq, Repr

/-! ## Values, callables and the AST

`src/object.rs` in the tree predates instances (it lacks the `Instance`
variant that `interpreter.rs`, `callable.rs` and `instance.rs` all
construct and match); the variant list below is the one those files use,
which is also the §3 value domain.  Environments are heap indices (`Rc`
handles in the source); instance field maps likewise.  The runtime
`Function`, `Class` and `Instance` and the syntactic `FunctionDef`,
`ClassDef`, `Expr`, `Stmt` are mutually recursive because `Expr::Literal`
carries an `Object` and function values share their definition's body. -/

/-- `Native` builtins (`src/callable.rs`). -/
inductive Native where
  | clock
  deriving DecidableEq, Repr

mutual

/-- `Object` (`src/object.rs` plus the `Instance` variant its callers use). -/
inductive Object where
  | nil : Object
  | boolean (b : Bool) : Object
  | number (value : F64) : Object
  | string (s : String) : Object
  | callable (c : Callable) : Object
  | instance (i : Instance) : Object

/-- `Callable` (`src/callable.rs`). -/
inductive Callable where
  | klass (c : Class) : Callable
  | function (f : Function) : Callable
  | native (n : Native) : Callable

/-- Runtime `Class` (`src/callable.rs`): name token, optional parent class,
method table (name → `Function`). -/
inductive Class where
  | mk (name : Token) (parent : Option Class)
      (methods : List (String × Function)) : Class

/-- Runtime `Function` (`src/callable.rs`): definition, captured closure
environment (a heap index standing for the `Rc` handle), is-initializer
flag. -/
inductive Function where
  | mk (definition : FunctionDef) (closure : Nat)
      (isInitializer : Bool) : Function

/-- `Instance` (`src/instance.rs`): class plus a shared mutable field map,
the latter a heap index standing for the `Rc<RefCell<Fields>>` handle. -/
inductive Instance where
  | mk (cls : Class) (fields : Nat) : Instance

/-- `definitions::Function` (`src/callable.rs`): name, parameters, body. -/
inductive FunctionDef where
  | mk (name : Token) (parameters : List Token)
      (body : List Stmt) : FunctionDef

/-- `definitions::Class` (`src/callable.rs`): name, optional parent name
token, method definitions. -/
inductive ClassDef where
  | mk (name : Token) (parent : Option Token)
      (methods : List FunctionDef) : ClassDef

/-- `Expr` (`src/expression.rs`). -/
inductive Expr where
  | assignment (name : Token) (value : Expr) : Expr
  | binary (left : Expr) (operator : Token) (right : Expr) : Expr
  | call (callee : Expr) (paren : Token) (arguments : List Expr) : Expr
  | get (object : Expr) (name : Token) : Expr
  | grouping (e : Expr) : Expr
  | literal (object : Object) : Expr
  | logical (left : Expr) (operator : Token) (right : Expr) : Expr
  | set (object : Expr) (name : Token) (value : Expr) : Expr
  | superExpr (keyword : Token) (method : Token) : Expr
  | thisExpr (keyword : Token) : Expr
  | unary (operator : Token) (right : Expr) : Expr
  | varExpr (name : Token) : Expr

/-- `Stmt` (`src/statement.rs`, with `Return`'s optional value and `If`'s
optional else as `src/parser.rs` builds them and `src/resolver.rs` consumes
them; `src/statement.rs` in the tree is from the revision just before the
value of `Return` became optional). -/
inductive Stmt where
  | block (statements : List Stmt) : Stmt
  | classStmt (definition : ClassDef) : Stmt
  | expression (e : Expr) : Stmt
  | functionStmt (definition : FunctionDef) : Stmt
  | ifStmt (condition : Expr) (thenBranch : Stmt)
      (elseBranch : Option Stmt) : Stmt
  | print (e : Expr) : Stmt
  | returnStmt (keyword : Token) (value : Option Expr) : Stmt
  | varStmt (name : Token) (initializer : Option Expr) : Stmt
  | whileStmt (condition : Expr) (body : Stmt) : Stmt

end

/-! Field accessors for the single-constructor inductives above (Lean
mutual blocks only accept `inductive`, so the Rust structs became
one-constructor inductives). -/

def Class.name : Class → Token
  | .mk n _ _ => n

def Class.parent : Class → Option Class
  | .mk _ p _ => p

def Class.methods : Class → List (String × Function)
  | .mk _ _ m => m

def Function.definition : Function → FunctionDef
  | .mk d _ _ => d

def Function.closure : Function → Nat
  | .mk _ c _ => c

def Function.isInitializer : Function → Bool
  | .mk _ _ i => i

def Instance.cls : Instance → Class
  | .mk c _ => c

def Instance.fields : Instance → Nat
  | .mk _ f => f

def FunctionDef.name : FunctionDef → Token
  | .mk n _ _ => n

def FunctionDef.parameters : FunctionDef → List Token
  | .mk _ p _ => p

def FunctionDef.body : FunctionDef → List Stmt
  | .mk _ _ b => b

def ClassDef.name : ClassDef → Token
  | .mk n _ _ => n

def ClassDef.parentName : ClassDef → Option Token
  | .mk _ p _ => p

def ClassDef.methodDefs : ClassDef → List FunctionDef
  | .mk _ _ m => m

/-- The unwind channel (`src/interpreter.rs`): a runtime error or a
function-return shortcut. -/
inductive Unwind where
  | error (token : Token) (message : String) : Unwind
  | ret (keyword : Token) (value : Object) : Unwind

/-! ## The environment heap

`src/environment.rs` in the tree is from the revision before depth-indexed
access (it still keys every operation by a `Token` and has no
`new_with_enclosing`, `get_at` or `assign_at`, while `callable.rs` and
`interpreter.rs` call all of them with plain string names).  The scope
chain is therefore modelled from the spec, §4.4 and §3 *Environment*: a
scope is a name→Object map plus an optional enclosing scope, shared by
handle.  A `Heap` owns every scope (and every instance field map), and the
`Rc` handles of the source are indices into it; fresh allocation appends,
so an enclosing index is always smaller than its child's. -/

/-- One scope of the chain: bindings plus the optional enclosing handle. -/
structure Scope where
  values : List (String × Object)
  enclosing : Option Nat
  deriving Inhabited

/-- The store of all scopes and all instance field maps. -/
structure Heap where
  envs : List Scope
  fieldMaps : List (List (String × Object))
  deriving Inhabited

/-- Insert-or-replace in an association map (Rust `HashMap::insert`). -/
def mapInsert {α β : Type} [BEq α] (key : α) (value : β) :
    List (α × β) → List (α × β)
  | [] => [(key, value)]
  | (k, v) :: rest =>
      if k == key then (key, value) :: rest
      else (k, v) :: mapInsert key value rest

namespace Heap

/-- The scope a handle refers to. -/
def envAt (h : Heap) (e : Nat) : Option Scope := h.envs[e]?

/-- Modelled from the spec (§4.4): `env::new` — a fresh scope with no
enclosing scope.  Returns the new heap and the new handle. -/
def newEnv (h : Heap) : Heap × Nat :=
  ({ h with envs := h.envs ++ [⟨[], none⟩] }, h.envs.length)

/-- Modelled from the spec (§4.4): `env::new_with_enclosing` — a fresh
scope whose enclosing scope is `parent`. -/
def newWithEnclosing (h : Heap) (parent : Nat) : Heap × Nat :=
  ({ h with envs := h.envs ++ [⟨[], some parent⟩] }, h.envs.length)

/-- Modelled from the spec (§4.4): `env::define` — unconditional insert in
the named scope.  A dangling handle leaves the heap unchanged (unreachable:
`Rc` handles are always live). -/
def define (h : Heap) (e : Nat) (name : String) (value : Object) : Heap :=
  match h.envs[e]? with
  | some s =>
      { h with envs := h.envs.set e ⟨mapInsert name value s.values, s.enclosing⟩ }
  | none => h

/-- Walk `hop` enclosing links (hop 0 is the scope itself). -/
def ancestor (h : Heap) (e : Nat) : Nat → Option Nat
  | 0 => some e
  | hop + 1 =>
      match h.envAt e with
      | some s =>
          match s.enclosing with
          | some p => h.ancestor p hop
          | none => none
      | none => none

/-- Modelled from the spec (§4.4): `env::get_at` — step `hop` enclosing
links and read; absence (`none`) is an implementation bug in the source
(the resolver guarantees existence). -/
def getAt (h : Heap) (e : Nat) (hop : Nat) (name : String) : Option Object :=
  (h.ancestor e hop).bind fun a =>
    (h.envAt a).bind fun s => s.values.lookup name

/-- The field map of an instance handle (dangling handles read as empty;
unreachable, `Rc` handles are always live). -/
def fieldsAt (h : Heap) (i : Nat) : List (String × Object) :=
  (h.fieldMaps[i]?).getD []

/-- Allocate a fresh, empty field map (the `Rc::new(RefCell::new(...))` of
`Instance::new`). -/
def newFields (h : Heap) : Heap × Nat :=
  ({ h with fieldMaps := h.fieldMaps ++ [[]] }, h.fieldMaps.length)

/-- Write one field of an instance field map (`Instance::set`). -/
def setField (h : Heap) (i : Nat) (name : String) (value : Object) : Heap :=
  match h.fieldMaps[i]? with
  | some m => { h with fieldMaps := h.fieldMaps.set i (mapInsert name value m) }
  | none => h

end Heap

/-! ## Rust `PartialEq` on the value domain

`Class` and `Function` have handwritten `PartialEq` impls in
`src/callable.rs`; `Native`, `Callable`, `Instance` and `Object` derive
theirs.  The instance case dereferences the shared field maps, so the
embedded equality takes the heap, and fuel because that recursion follows
heap edges (in Rust it diverges on cyclic instances). -/

/-- `impl PartialEq for Class` (`src/callable.rs` lines 85–91): classes
compare by their name token's kind alone. -/
def Class.beqRust (a b : Class) : Bool :=
  TokenType.beqRust a.name.tokenType b.name.tokenType

/-- `impl PartialEq for Function` (`src/callable.rs` lines 180–191): same
name-token kind and pointer-equal closure (`Rc::ptr_eq`, index equality
here). -/
def Function.beqRust (a b : Function) : Bool :=
  TokenType.beqRust a.definition.name.tokenType b.definition.name.tokenType
    && a.closure == b.closure

/-- Derived `PartialEq` for `Callable`: same variant and equal payloads. -/
def Callable.beqRust : Callable → Callable → Bool
  | .klass a, .klass b => Class.beqRust a b
  | .function a, .function b => Function.beqRust a b
  | .native a, .native b => a == b
  | _, _ => false

/-- `entriesMatchWith eq m1 m2` is `HashMap::eq`'s entry walk:
`m1.iter().all(|(k, v)| m2.get(k).map_or(false, |w| *v == *w))`, with the
value comparison `eq` short-circuiting like Rust `all`. -/
def entriesMatchWith (eq : Object → Object → Option Bool)
    (m2 : List (String × Object)) : List (String × Object) → Option Bool
  | [] => some true
  | (k, v) :: rest =>
      match m2.lookup k with
      | none => some false
      | some w =>
          match eq v w with
          | none => none
          | some false => some false
          | some true => entriesMatchWith eq m2 rest

/-- Derived `PartialEq` for `Object` (`src/object.rs`): same variant and
equal payloads; `Number` compares by IEEE equality; `Instance` compares its
class (name only) and then the contents of the two shared field maps
(`Rc<RefCell<HashMap>>` compares contents: equal length and every entry of
the left present and equal in the right).  `none` is divergence (exhausted
fuel). -/
def objectEq : Nat → Heap → Object → Object → Option Bool
  | 0, _, _, _ => none
  | _ + 1, _, .nil, .nil => some true
  | _ + 1, _, .boolean a, .boolean b => some (a == b)
  | _ + 1, _, .number a, .number b => some (F64.beq a b)
  | _ + 1, _, .string a, .string b => some (a == b)
  | _ + 1, _, .callable a, .callable b => some (Callable.beqRust a b)
  | fuel + 1, h, .instance a, .instance b =>
      if !Class.beqRust a.cls b.cls then some false
      else
        let m1 := h.fieldsAt a.fields
        let m2 := h.fieldsAt b.fields
        if m1.length ≠ m2.length then some false
        else entriesMatchWith (fun v w => objectEq fuel h v w) m2 m1
  | _ + 1, _, _, _ => some false

/-! ## Callable and instance semantics (`src/callable.rs`, `src/instance.rs`)

`Function::call` executes the function body through
`Interpreter::execute_block`.  The claims quantify over every call, so the
embedding takes the body execution as an explicit parameter `exec`: given
the heap after parameter binding and the fresh local scope, `exec` returns
the heap it leaves behind and the body's outcome (`none` = fell off the
end, `some u` = unwound).  `Function::call` itself only allocates, binds
parameters, runs the body once, and dispatches on the outcome, which is
exactly the structure below. -/

/-- The outcome of running a statement block. -/
abbrev BlockExec := Heap → Nat → Heap × Option Unwind

/-- `Class::find_method` (`src/callable.rs` lines 68–75): own table first,
then the parent chain. -/
def Class.findMethod : Class → String → Option Function
  | .mk _ parent methods, name =>
      match methods.lookup name with
      | some method => some method
      | none =>
          match parent with
          | some p => p.findMethod name
          | none => none

/-- `Function::arity` (`src/callable.rs` lines 111–124): the parameter
count as a `u8`; more than 255 parameters panics (`none`). -/
def Function.arity (f : Function) : Option Nat :=
  if f.definition.parameters.length ≤ 255 then
    some f.definition.parameters.length
  else none

/-- `Class::arity` (`src/callable.rs` lines 48–52): the arity of the
`init` method when one exists on the chain, else 0. -/
def Class.arity (c : Class) : Option Nat :=
  match c.findMethod "init" with
  | some initializer => initializer.arity
  | none => some 0

/-- `Function::bind` (`src/callable.rs` lines 165–170): a new `Function`
with the same definition and is-initializer flag whose closure is a fresh
scope, enclosing the old closure, that defines `this` as the instance. -/
def Function.bind (f : Function) (h : Heap) (inst : Instance) :
    Heap × Function :=
  let (h1, withThis) := h.newWithEnclosing f.closure
  (h1.define withThis "this" (.instance inst),
   .mk f.definition withThis f.isInitializer)

/-- The parameter-binding loop of `Function::call`:
`env::define(local, parameter.to_name().1, argument)` per position.
`to_name` on a non-identifier parameter token panics (`none`). -/
def defineParameters (e : Nat) :
    Heap → List Token → List Object → Option Heap
  | h, [], _ => some h
  | h, _, [] => some h
  | h, p :: ps, a :: args =>
      match p.toName with
      | some (_, name) => defineParameters e (h.define e name a) ps args
      | none => none

/-- `Function::call` (`src/callable.rs` lines 126–163).  Fresh local scope
enclosed by the closure; panic (`none`) if the argument count differs from
the parameter count; bind parameters; run the body (`exec`); then: on a
`Return` unwind, yield `this` read at depth 0 of the *closure* when the
is-initializer flag is set (discarding the operand), else the operand; on
an error unwind, propagate; on normal exit, `this` as above when
is-initializer, else `Nil`.  A missing `this` in the initializer read is
the source's `get_at` panic (`none`). -/
def Function.call (f : Function) (h : Heap) (arguments : List Object)
    (exec : BlockExec) : Heap × Option (Except Unwind Object) :=
  let (h1, localEnv) := h.newWithEnclosing f.closure
  if f.definition.parameters.length ≠ arguments.length then (h1, none)
  else
    match defineParameters localEnv h1 f.definition.parameters arguments with
    | none => (h1, none)
    | some h2 =>
        let (h3, result) := exec h2 localEnv
        match result with
        | some (.ret _ object) =>
            if f.isInitializer then
              (h3, (h3.getAt f.closure 0 "this").map Except.ok)
            else (h3, some (.ok object))
        | some (.error token message) =>
            (h3, some (.error (.error token message)))
        | none =>
            if f.isInitializer then
              (h3, (h3.getAt f.closure 0 "this").map Except.ok)
            else (h3, some (.ok .nil))

/-- `Instance::new` (`src/instance.rs`): the class plus a fresh, empty,
shared field map. -/
def Instance.new (h : Heap) (cls : Class) : Heap × Instance :=
  let (h1, fid) := h.newFields
  (h1, .mk cls fid)

/-- `Instance::get` (`src/instance.rs` lines 33–40): read the field; on a
miss, look the name up on the class chain and return the method — as the
source stands, *unbound* (`function.erase()`; `Function::bind` is never
applied here). -/
def Instance.get (h : Heap) (i : Instance) (name : String) : Option Object :=
  match (h.fieldsAt i.fields).lookup name with
  | some field => some field
  | none => (i.cls.findMethod name).map fun f => Object.callable (.function f)

/-- `Instance::set` (`src/instance.rs`): write the field through the shared
map. -/
def Instance.set (h : Heap) (i : Instance) (name : String)
    (object : Object) : Heap :=
  h.setField i.fields name object

/-- `Class::call` (`src/callable.rs` lines 54–66): allocate a fresh
instance; if the chain has an `init` method, bind it to the instance and
call it with the arguments, and that call's result is the result; else the
instance itself. -/
def Class.call (c : Class) (h : Heap) (arguments : List Object)
    (exec : BlockExec) : Heap × Option (Except Unwind Object) :=
  let (h1, inst) := Instance.new h c
  match c.findMethod "init" with
  | some initializer =>
      let (h2, bound) := initializer.bind h1 inst
      bound.call h2 arguments exec
  | none => (h1, some (.ok (.instance inst)))

/-! ## Interpreter visitors under verification (`src/interpreter.rs`)

`visit_get` and `visit_binary` first evaluate their operand expressions and
then dispatch on the resulting values; the embedding starts at the dispatch,
taking the already-evaluated `Object`s, which is where every property at
issue lives. -/

/-- `is_truthy` (`src/interpreter.rs` lines 506–515): `nil` and `false` are
falsey, everything else truthy. -/
def isTruthy : Object → Bool
  | .nil => false
  | .boolean false => false
  | _ => true

/-- `Interpreter::visit_get` (`src/interpreter.rs` lines 297–313), after
the object expression has been evaluated: the value must be an instance,
else the runtime error `Only instances have properties.`; then
`Instance::get`, a miss being `Undefined property 'name'.`.  `to_name` on a
non-identifier property token panics (`none`). -/
def visitGetValue (h : Heap) (object : Object) (token : Token) :
    Option (Except Unwind Object) :=
  match token.toName with
  | none => none
  | some (_, name) =>
      match object with
      | .instance inst =>
          match Instance.get h inst name with
          | some o => some (.ok o)
          | none =>
              some (.error (.error token s!"Undefined property '{name}'."))
      | _ => some (.error (.error token "Only instances have properties."))

/-- `Interpreter::visit_binary` (`src/interpreter.rs` lines 141–251), after
both operands have been evaluated.  `==`/`!=` apply Object equality (hence
the fuel and heap); the comparisons and `-`, `*` require two numbers; `+`
two numbers or two strings; `/` requires two numbers and a right operand
not IEEE-equal to `0`, else `Division by zero.`.  A non-binary operator
token panics (`none`). -/
def visitBinaryValues (fuel : Nat) (h : Heap) (left : Object)
    (operator : Token) (right : Object) : Option (Except Unwind Object) :=
  match operator.tokenType with
  | .bangEqual =>
      (objectEq fuel h left right).map fun b => .ok (.boolean !b)
  | .equalEqual =>
      (objectEq fuel h left right).map fun b => .ok (.boolean b)
  | .greater =>
      match left, right with
      | .number a, .number b => some (.ok (.boolean (F64.lt b a)))
      | _, _ =>
          some (.error (.error operator "Operands must be numbers."))
  | .greaterEqual =>
      match left, right with
      | .number a, .number b => some (.ok (.boolean (F64.le b a)))
      | _, _ =>
          some (.error (.error operator "Operands must be numbers."))
  | .less =>
      match left, right with
      | .number a, .number b => some (.ok (.boolean (F64.lt a b)))
      | _, _ =>
          some (.error (.error operator "Operands must be numbers."))
  | .lessEqual =>
      match left, right with
      | .number a, .number b => some (.ok (.boolean (F64.le a b)))
      | _, _ =>
          some (.error (.error operator "Operands must be numbers."))
  | .minus =>
      match left, right with
      | .number a, .number b => some (.ok (.number (F64.sub a b)))
      | _, _ =>
          some (.error (.error operator "Operands must be numbers."))
  | .plus =>
      match left, right with
      | .number a, .number b => some (.ok (.number (F64.add a b)))
      | .string a, .string b => some (.ok (.string (a ++ b)))
      | _, _ =>
          some (.error (.error operator
            "Operands must be two numbers or two strings."))
  | .slash =>
      match left, right with
      | .number a, .number b =>
          if !F64.beq b F64.zero then some (.ok (.number (F64.div a b)))
          else some (.error (.error operator "Division by zero."))
      | _, _ =>
          some (.error (.error operator "Operands must be numbers."))
  | .star =>
      match left, right with
      | .number a, .number b => some (.ok (.number (F64.mul a b)))
      | _, _ =>
          some (.error (.error operator "Operands must be numbers."))
  | _ => none

/-! ## A NaN-freeness certificate for reflexivity

Rust `PartialEq` on `Object` is reflexive exactly where no IEEE `NaN`
enters a comparison.  `Object.noNan` walks the same structure `objectEq`
walks (same fuel discipline) and certifies: no NaN payload, no NaN in a
callable's or instance-class's name token, and pairwise-distinct keys in
every field map met (a Rust `HashMap` cannot hold duplicate keys; arbitrary
heap values here could). -/

/-- The token's kind carries no NaN (relevant because `TokenType::Number`
holds an `f64` and token kinds compare by IEEE equality). -/
def Token.noNanType (t : Token) : Bool :=
  match t.tokenType with
  | .number v => !v.isNan
  | _ => true

/-- The name token a `Callable`'s equality looks at carries no NaN. -/
def Callable.noNanName : Callable → Bool
  | .klass c => Token.noNanType c.name
  | .function f => Token.noNanType f.definition.name
  | .native _ => true

/-- Check a predicate on every value of a field map, short-circuiting. -/
def valuesAllWith (p : Object → Option Bool) :
    List (String × Object) → Option Bool
  | [] => some true
  | (_, v) :: rest =>
      match p v with
      | none => none
      | some false => some false
      | some true => valuesAllWith p rest

/-- Keys of a field map are pairwise distinct (always true of a map that a
Rust `HashMap` could be). -/
def keysNodup (m : List (String × Object)) : Bool :=
  decide (m.map Prod.fst).Nodup

/-- No NaN reachable from the object through the comparisons `objectEq`
performs, and every field map met is a genuine map. -/
def Object.noNan : Nat → Heap → Object → Option Bool
  | 0, _, _ => none
  | _ + 1, _, .nil => some true
  | _ + 1, _, .boolean _ => some true
  | _ + 1, _, .number v => some !v.isNan
  | _ + 1, _, .string _ => some true
  | _ + 1, _, .callable c => some (Callable.noNanName c)
  | fuel + 1, h, .instance i =>
      if !Token.noNanType i.cls.name then some false
      else
        let m := h.fieldsAt i.fields
        if !keysNodup m then some false
        else valuesAllWith (fun v => Object.noNan fuel h v) m

/-! ## Class declaration execution, modelled from the spec (for C3, C4)

`Interpreter::visit_class` in the tree (`src/interpreter.rs` lines 405–431)
is from the pre-inheritance revision: it destructures a *two*-field
`definitions::Class`, never looks at a parent, and builds each method
without an is-initializer flag — it no longer even matches the three-field
`definitions::Class` and the three-argument `Function::new` of
`src/callable.rs`.  The class-declaration semantics are therefore modelled
from the spec, §4.6 *Class(name, parent?, methods)*. -/

/-- Modelled from the spec: the superclass check of `visit_class` — the
evaluated parent reference must be a `Class` value, else the runtime error
`Superclass must be a class.`. -/
def evalSuperclass (parentValue : Object) (parentToken : Token) :
    Except Unwind Class :=
  match parentValue with
  | .callable (.klass c) => .ok c
  | _ => .error (.error parentToken "Superclass must be a class.")

/-- Modelled from the spec: the method table built by `visit_class` — each
method becomes a `Function` capturing the current scope, with
is-initializer set exactly when its name is `init`. -/
def buildMethods (e : Nat) :
    List FunctionDef → Option (List (String × Function))
  | [] => some []
  | d :: rest =>
      match d.name.toName with
      | none => none
      | some (_, name) =>
          (buildMethods e rest).map fun methods =>
            (name, Function.mk d e (name == "init")) :: methods

/-- Modelled from the spec: `visit_class` after the parent reference (when
named) has been evaluated and checked — define the name as `Nil`; if a
parent exists, push a scope defining `super`; build the methods capturing
the current scope; build the class recording the parent; bind the name to
it. -/
def visitClassModel (h : Heap) (e : Nat) (d : ClassDef)
    (parentClass : Option Class) : Option (Heap × Class) :=
  match d.name.toName with
  | none => none
  | some (_, name) =>
      let h0 := h.define e name .nil
      let (h1, methodEnv) :=
        match parentClass with
        | some p =>
            let (hh, se) := h0.newWithEnclosing e
            (hh.define se "super" (.callable (.klass p)), se)
        | none => (h0, e)
      match buildMethods methodEnv d.methodDefs with
      | none => none
      | some methods =>
          let cls := Class.mk d.name parentClass methods
          some (h1.define e name (.callable (.klass cls)), cls)

/-! ## The scanner (`src/scanner.rs`)

A faithful state machine: source as a character list, an output token list,
`start`/`current` offsets, 1-based `line`, the identifier-key counter, the
`stumbled` flag, and the diagnostics `error::scanner_error` would print,
collected as `(line, message)` pairs.  The source's `while` loops become
fuel recursion (`source.length + 1` fuel at each entry, always enough
because every iteration consumes a character); out-of-range indexing
(never reached: `advance` is always guarded) reads `'\x00'`. -/

/-- `is_digit` (`src/scanner.rs`): ASCII digit. -/
def isDigitC (c : Char) : Bool := c.isDigit

/-- `is_alpha` (`src/scanner.rs`): ASCII letter or underscore. -/
def isAlphaC (c : Char) : Bool := c.isAlpha || c == '_'

/-- `is_alpha_numeric` (`src/scanner.rs`). -/
def isAlphaNumericC (c : Char) : Bool := isAlphaC c || isDigitC c

/-- `lexeme.parse::<f64>()` on the shapes the scanner produces: one or more
digits, optionally a dot and one or more digits, as an exact rational.
Anything else — impossible for a scanned number lexeme — is a parse error
(`none` inside the `Option`, the `Err` arm of `number`). -/
def parseF64 (s : String) : Option F64 :=
  let digitsVal : List Char → Nat :=
    fun l => l.foldl (fun n c => 10 * n + (c.toNat - 48)) 0
  let intPart := s.data.takeWhile isDigitC
  let rest := s.data.dropWhile isDigitC
  if intPart.isEmpty then none
  else
    match rest with
    | [] => some (.finite (digitsVal intPart))
    | '.' :: frac =>
        if frac.isEmpty || !frac.all isDigitC then none
        else
          some (.finite ((digitsVal intPart : ℚ) +
            (digitsVal frac : ℚ) / ((10 : ℚ) ^ frac.length)))
    | _ => none

/-- The scanner state (`Scanner` in `src/scanner.rs`), with diagnostics
accumulated instead of printed. -/
structure Scanner where
  source : List Char
  tokens : List Token
  start : Nat
  current : Nat
  line : Nat
  identifierKey : Nat
  stumbled : Bool
  diags : List (Nat × String)
  deriving Repr

namespace Scanner

/-- `Scanner::new`. -/
def new (source : String) : Scanner :=
  ⟨source.data, [], 0, 0, 1, 0, false, []⟩

/-- `Scanner::is_at_end`. -/
def isAtEnd (s : Scanner) : Bool := s.current ≥ s.source.length

/-- `Scanner::peek`. -/
def peek (s : Scanner) : Char :=
  if s.isAtEnd then '\x00' else s.source.getD s.current '\x00'

/-- `Scanner::peek_next`. -/
def peekNext (s : Scanner) : Char :=
  if s.current + 1 ≥ s.source.length then '\x00'
  else s.source.getD (s.current + 1) '\x00'

/-- `Scanner::advance`: the character at `current`, and `current + 1`. -/
def advance (s : Scanner) : Char × Scanner :=
  (s.source.getD s.current '\x00', { s with current := s.current + 1 })

/-- `Scanner::advance_if`. -/
def advanceIf (s : Scanner) (expected : Char) : Bool × Scanner :=
  if s.isAtEnd then (false, s)
  else if s.source.getD s.current '\x00' != expected then (false, s)
  else (true, { s with current := s.current + 1 })

/-- `Scanner::collect_lexeme`. -/
def collectLexeme (s : Scanner) (a b : Nat) : String :=
  String.mk ((s.source.drop a).take (b - a))

/-- `Scanner::add_token`. -/
def addToken (s : Scanner) (tokenType : TokenType) : Scanner :=
  { s with tokens :=
      s.tokens ++ [⟨tokenType, s.collectLexeme s.start s.current, s.line⟩] }

/-- `Scanner::add_token_if`. -/
def addTokenIf (s : Scanner) (expected : Char)
    (success failure : TokenType) : Scanner :=
  let (hit, s1) := s.advanceIf expected
  if hit then s1.addToken success else s1.addToken failure

/-- `error::scanner_error(line, message)`: record the diagnostic.  Note it
does *not* touch the `stumbled` flag. -/
def scannerError (s : Scanner) (line : Nat) (message : String) : Scanner :=
  { s with diags := s.diags ++ [(line, message)] }

/-- `Scanner::new_key`. -/
def newKey (s : Scanner) : Nat × Scanner :=
  (s.identifierKey, { s with identifierKey := s.identifierKey + 1 })

end Scanner

/-- The `//`-comment loop of `Scanner::slash`: consume to end of line. -/
def commentLoop : Nat → Scanner → Scanner
  | 0, s => s
  | fuel + 1, s =>
      if s.peek != '\n' && !s.isAtEnd then commentLoop fuel (s.advance).2
      else s

/-- `Scanner::slash`: a second `/` starts a comment, else the `Slash`
token. -/
def Scanner.slash (s : Scanner) : Scanner :=
  let (hit, s1) := s.advanceIf '/'
  if hit then commentLoop (s1.source.length + 1) s1
  else s1.addToken .slash

/-- The body loop of `Scanner::string`: consume (counting lines) until the
closing quote or the end of input. -/
def stringLoop : Nat → Scanner → Scanner
  | 0, s => s
  | fuel + 1, s =>
      if s.peek != '"' && !s.isAtEnd then
        stringLoop fuel
          ((if s.peek == '\n' then { s with line := s.line + 1 } else s).advance).2
      else s

/-- `Scanner::string` (`src/scanner.rs` lines 136–152): an unterminated
string reports `Unterminated string.` *and sets the stumbled flag*; a
terminated one stores the lexeme without its quotes. -/
def Scanner.stringLit (s : Scanner) : Scanner :=
  let s1 := stringLoop (s.source.length + 1) s
  if s1.isAtEnd then
    { s1.scannerError s1.line "Unterminated string." with stumbled := true }
  else
    let s2 := (s1.advance).2
    s2.addToken (.string (s2.collectLexeme (s2.start + 1) (s2.current - 1)))

/-- The digit-consuming loop of `Scanner::number`. -/
def digitLoop : Nat → Scanner → Scanner
  | 0, s => s
  | fuel + 1, s =>
      if isDigitC s.peek then digitLoop fuel (s.advance).2 else s

/-- `Scanner::number` (`src/scanner.rs` lines 154–176): digits, an optional
dot followed by a digit, more digits; a failed `f64` parse reports
`Number cannot be represented with 64 bits.` *and sets the stumbled
flag*. -/
def Scanner.number (s : Scanner) : Scanner :=
  let s1 := digitLoop (s.source.length + 1) s
  let s2 :=
    if s1.peek == '.' && isDigitC s1.peekNext then (s1.advance).2 else s1
  let s3 := digitLoop (s2.source.length + 1) s2
  match parseF64 (s3.collectLexeme s3.start s3.current) with
  | some value => s3.addToken (.number value)
  | none =>
      { s3.scannerError s3.line "Number cannot be represented with 64 bits."
          with stumbled := true }

/-- The tail loop of `Scanner::identifier`. -/
def identLoop : Nat → Scanner → Scanner
  | 0, s => s
  | fuel + 1, s =>
      if isAlphaNumericC s.peek then identLoop fuel (s.advance).2 else s

/-- `Scanner::identifier` (`src/scanner.rs` lines 178–209): the keyword
table; `super` and `this` are minted with a fresh key, as is a plain
identifier. -/
def Scanner.identifier (s : Scanner) : Scanner :=
  let s1 := identLoop (s.source.length + 1) s
  match s1.collectLexeme s1.start s1.current with
  | "and" => s1.addToken .and
  | "class" => s1.addToken .classKw
  | "else" => s1.addToken .elseKw
  | "false" => s1.addToken .falseKw
  | "for" => s1.addToken .forKw
  | "fun" => s1.addToken .fun'
  | "if" => s1.addToken .ifKw
  | "nil" => s1.addToken .nil
  | "or" => s1.addToken .or
  | "print" => s1.addToken .print
  | "return" => s1.addToken .return'
  | "super" => let (k, s2) := s1.newKey; s2.addToken (.superKw k)
  | "this" => let (k, s2) := s1.newKey; s2.addToken (.thisKw k)
  | "true" => s1.addToken .trueKw
  | "var" => s1.addToken .var
  | "while" => s1.addToken .whileKw
  | name => let (k, s2) := s1.newKey; s2.addToken (.identifier k name)

/-- The dispatch of `Scanner::scan_token` (`src/scanner.rs` lines 51–82) on
the consumed character.  Note the final arm: an unexpected character is
reported via `error::scanner_error` and otherwise ignored — the `stumbled`
flag is *not* set there. -/
def Scanner.scanTokenChar (s : Scanner) (c : Char) : Scanner :=
  match c with
  | '(' => s.addToken .leftParen
  | ')' => s.addToken .rightParen
  | '{' => s.addToken .leftBrace
  | '}' => s.addToken .rightBrace
  | ',' => s.addToken .comma
  | '.' => s.addToken .dot
  | '-' => s.addToken .minus
  | '+' => s.addToken .plus
  | ';' => s.addToken .semicolon
  | '*' => s.addToken .star
  | '!' => s.addTokenIf '=' .bangEqual .bang
  | '=' => s.addTokenIf '=' .equalEqual .equal
  | '<' => s.addTokenIf '=' .lessEqual .less
  | '>' => s.addTokenIf '=' .greaterEqual .greater
  | '/' => s.slash
  | '"' => s.stringLit
  | ' ' => s
  | '\t' => s
  | '\n' => { s with line := s.line + 1 }
  | c =>
      if isDigitC c then s.number
      else if isAlphaC c then s.identifier
      else s.scannerError s.line "Unexpected character."

/-- `Scanner::scan_token`: consume one character and dispatch on it. -/
def Scanner.scanToken (s0 : Scanner) : Scanner :=
  let (c, s) := s0.advance
  s.scanTokenChar c

/-- The `while !self.is_at_end()` loop of `Scanner::scan_tokens`: set
`start` to `current`, scan one token, repeat. -/
def scanLoop : Nat → Scanner → Scanner
  | 0, s => s
  | fuel + 1, s =>
      if !s.isAtEnd then
        scanLoop fuel (Scanner.scanToken { s with start := s.current })
      else s

/-- `Scanner::scan_tokens` (`src/scanner.rs` lines 28–41): the scan loop,
then the EOF token (lexeme `"\0"`, current line). -/
def Scanner.scanTokens (s : Scanner) : Scanner :=
  let s1 := scanLoop (s.source.length + 1) s
  { s1 with tokens := s1.tokens ++ [⟨.endOfFile, "\x00", s1.line⟩] }

/-- Scan a whole source text from a fresh scanner. -/
def scan (source : String) : Scanner := (Scanner.new source).scanTokens

/-- `Scanner::consume` (`src/scanner.rs` lines 43–49): the `Scan` error
class when stumbled, else the token list. -/
def Scanner.consume (s : Scanner) : Except LoxError (List Token) :=
  if s.stumbled then .error .scan else .ok s.tokens

/-! ## The resolver (`src/resolver.rs`)

A faithful embedding of the second pass.  The scope stack is a list with
the *innermost* scope at the head (the top of the source's `Vec`), so the
`iter().rev().enumerate()` of `resolve_local` is plain head-first traversal
with the index as the hop count.  Every operation that calls
`Token::to_name` is `Option`-valued: `none` is the source panicking on a
non-identifier token (which `Super` tokens trigger, see `Token.toName`).
Diagnostics are `(token, message)` pairs in report order. -/

/-- The resolver's function context (`enum Function` in
`src/resolver.rs`). -/
inductive FunctionCtx where
  | global | function | method | initializer
  deriving DecidableEq, Repr

/-- The resolver's class context (`enum Class` in `src/resolver.rs`). -/
inductive ClassCtx where
  | global | cls | subclass
  deriving DecidableEq, Repr

/-- The resolver state (`Resolver` in `src/resolver.rs`), with diagnostics
accumulated instead of printed. -/
structure Resolver where
  scopes : List (List (String × Bool))
  resolutions : List (Nat × Nat)
  functionScope : FunctionCtx
  classScope : ClassCtx
  stumbled : Bool
  diags : List (Token × String)
  deriving Repr

namespace Resolver

/-- `Resolver::new`. -/
def new : Resolver := ⟨[], [], .global, .global, false, []⟩

/-- `Resolver::consume` (`src/resolver.rs` lines 44–50): the `Resolve`
error class when stumbled, else the resolution map. -/
def consume (r : Resolver) : Except LoxError (List (Nat × Nat)) :=
  if r.stumbled then .error .resolve else .ok r.resolutions

/-- `Resolver::stumble`: report the diagnostic and set the flag. -/
def stumble (r : Resolver) (at' : Token) (reason : String) : Resolver :=
  { r with diags := r.diags ++ [(at', reason)], stumbled := true }

/-- `Resolver::begin_scope`. -/
def beginScope (r : Resolver) : Resolver :=
  { r with scopes := [] :: r.scopes }

/-- `Resolver::end_scope` (`Vec::pop`; popping an empty stack is a
no-op). -/
def endScope (r : Resolver) : Resolver :=
  { r with scopes := r.scopes.tail }

/-- `Resolver::add_to_scope`: insert into the innermost scope when one
exists. -/
def addToScope (r : Resolver) (name : String) (resolved : Bool) : Resolver :=
  match r.scopes with
  | [] => r
  | top :: rest => { r with scopes := mapInsert name resolved top :: rest }

/-- `Resolver::declare` (`src/resolver.rs` lines 114–122): in the innermost
scope, a redeclaration is `Already a variable with this name in this
scope.`, else declare as not-yet-defined. -/
def declare (r : Resolver) (name : Token) : Option Resolver :=
  match r.scopes with
  | [] => some r
  | top :: _ =>
      name.toName.map fun (_, n) =>
        if (top.lookup n).isSome then
          r.stumble name "Already a variable with this name in this scope."
        else r.addToScope n false

/-- `Resolver::define`. -/
def define (r : Resolver) (name : Token) : Option Resolver :=
  name.toName.map fun (_, n) => r.addToScope n true

/-- The innermost→outermost search of `resolve_local`: the hop count of the
first scope containing the name. -/
def findDepth (n : String) : List (List (String × Bool)) → Option Nat
  | [] => none
  | top :: rest =>
      if (top.lookup n).isSome then some 0
      else (findDepth n rest).map (· + 1)

/-- `Resolver::resolve_local` (`src/resolver.rs` lines 95–104): record the
hop count keyed by the token's unique ID; no hit leaves the map alone.
Calls `to_name`, so a `Super` token panics here. -/
def resolveLocal (r : Resolver) (name : Token) : Option Resolver :=
  name.toName.map fun (key, n) =>
    match findDepth n r.scopes with
    | some depth => { r with resolutions := mapInsert key depth r.resolutions }
    | none => r

end Resolver

/-- The declare-and-define loop over a parameter list in
`Resolver::resolve_function`. -/
def declareDefineParams : Resolver → List Token → Option Resolver
  | r, [] => some r
  | r, p :: ps =>
      (r.declare p).bind fun r1 =>
        (r1.define p).bind fun r2 => declareDefineParams r2 ps

mutual

/-- The expression visitor of the resolver (`impl expr::Visitor<()>`,
`src/resolver.rs` lines 140–210). -/
def resolveExpr (r : Resolver) (e : Expr) : Option Resolver :=
  match e with
  | .assignment name value =>
      (resolveExpr r value).bind fun r1 => r1.resolveLocal name
  | .binary left _ right =>
      (resolveExpr r left).bind fun r1 => resolveExpr r1 right
  | .call callee _ arguments =>
      (resolveExpr r callee).bind fun r1 => resolveExprs r1 arguments
  | .get object _ => resolveExpr r object
  | .grouping e => resolveExpr r e
  | .literal _ => some r
  | .logical left _ right =>
      (resolveExpr r left).bind fun r1 => resolveExpr r1 right
  | .set object _ value =>
      (resolveExpr r value).bind fun r1 => resolveExpr r1 object
  | .superExpr keyword _ =>
      let r1 :=
        if r.classScope == .global then
          r.stumble keyword "Can't use 'super' outside of a class."
        else if r.classScope == .cls then
          r.stumble keyword "Can't use 'super' in a class with no superclass."
        else r
      r1.resolveLocal keyword
  | .thisExpr keyword =>
      let r1 :=
        if r.classScope == .global then
          r.stumble keyword "Can't use 'this' outside of a class."
        else r
      r1.resolveLocal keyword
  | .unary _ right => resolveExpr r right
  | .varExpr name =>
      match r.scopes with
      | [] => some r
      | top :: _ =>
          name.toName.bind fun (_, n) =>
            let r1 :=
              if top.lookup n == some false then
                r.stumble name
                  "Can't read local variable in its own initializer."
              else r
            r1.resolveLocal name
termination_by sizeOf e

/-- The argument loop of `visit_call`. -/
def resolveExprs (r : Resolver) (arguments : List Expr) : Option Resolver :=
  match arguments with
  | [] => some r
  | e :: rest => (resolveExpr r e).bind fun r1 => resolveExprs r1 rest
termination_by sizeOf arguments

/-- The statement visitor of the resolver (`impl stmt::Visitor<()>`,
`src/resolver.rs` lines 212–321). -/
def resolveStmt (r : Resolver) (stmt : Stmt) : Option Resolver :=
  match stmt with
  | .block statements =>
      (resolveStmts r.beginScope statements).map (·.endScope)
  | .classStmt definition => visitClassRes r definition
  | .expression e => resolveExpr r e
  | .functionStmt definition =>
      (r.declare definition.name).bind fun r1 =>
        (r1.define definition.name).bind fun r2 =>
          resolveFunction r2 definition .function
  | .ifStmt condition thenBranch elseBranch =>
      (resolveExpr r condition).bind fun r1 =>
        (resolveStmt r1 thenBranch).bind fun r2 =>
          match elseBranch with
          | some s => resolveStmt r2 s
          | none => some r2
  | .print e => resolveExpr r e
  | .returnStmt keyword value => visitReturn r keyword value
  | .varStmt name initializer =>
      (r.declare name).bind fun r1 =>
        (match initializer with
         | some e => resolveExpr r1 e
         | none => some r1).bind fun r2 => r2.define name
  | .whileStmt condition body =>
      (resolveExpr r condition).bind fun r1 => resolveStmt r1 body
termination_by sizeOf stmt

/-- `Resolver::visit_return` (`src/resolver.rs` lines 293–305): `return`
in function context *none* is `Can't return from top-level code.`; a valued
`return` in *initializer* context is `Can't return a value from an
initializer.`; a bare `return;` in an initializer passes. -/
def visitReturn (r : Resolver) (keyword : Token) (value : Option Expr) :
    Option Resolver :=
  let r1 :=
    if r.functionScope == .global then
      r.stumble keyword "Can't return from top-level code."
    else r
  match value with
  | some object =>
      let r2 :=
        if r1.functionScope == .initializer then
          r1.stumble keyword "Can't return a value from an initializer."
        else r1
      resolveExpr r2 object
  | none => some r1

/-- `Resolver::resolve_function` (`src/resolver.rs` lines 66–93): new
scope, new function context, parameters declared and defined, body
resolved, scope popped, context restored. -/
def resolveFunction (r : Resolver) (definition : FunctionDef)
    (ctx : FunctionCtx) : Option Resolver :=
  match definition with
  | .mk _ parameters body =>
      let enclosing := r.functionScope
      let r1 := { r.beginScope with functionScope := ctx }
      (declareDefineParams r1 parameters).bind fun r2 =>
        (resolveStmts r2 body).map fun r3 =>
          { r3.endScope with functionScope := enclosing }
termination_by sizeOf definition

/-- The method loop of `visit_class`: context *initializer* exactly when
the method's name is `init`, else *method*. -/
def resolveMethods (r : Resolver) (methods : List FunctionDef) :
    Option Resolver :=
  match methods with
  | [] => some r
  | m :: ms =>
      m.name.toName.bind fun (_, n) =>
        let ctx : FunctionCtx := if n == "init" then .initializer else .method
        (resolveFunction r m ctx).bind fun r1 => resolveMethods r1 ms
termination_by sizeOf methods

/-- `Resolver::visit_class` (`src/resolver.rs` lines 219–262). -/
def visitClassRes (r : Resolver) (definition : ClassDef) : Option Resolver :=
  match definition with
  | .mk className parentName methodDefs =>
      let enclosing := r.classScope
      let r0 := { r with classScope := .cls }
      (r0.declare className).bind fun r1 =>
        (r1.define className).bind fun r2 =>
          (match parentName with
           | some parent =>
               let r3 := { r2 with classScope := .subclass }
               className.toName.bind fun (_, n) =>
                 parent.toName.bind fun (_, pn) =>
                   let r4 :=
                     if n == pn then
                       r3.stumble parent "A class can't inherit from itself."
                     else r3
                   r4.resolveLocal parent
           | none => some r2).bind fun r5 =>
            let r6 :=
              match parentName with
              | some _ => r5.beginScope.addToScope "super" true
              | none => r5
            let r7 := r6.beginScope.addToScope "this" true
            (resolveMethods r7 methodDefs).map fun (r8 : Resolver) =>
              let r9 := r8.endScope
              let r10 :=
                match parentName with
                | some _ => r9.endScope
                | none => r9
              { r10 with classScope := enclosing }
termination_by sizeOf definition

/-- `Resolver::resolve_statements`. -/
def resolveStmts (r : Resolver) (statements : List Stmt) : Option Resolver :=
  match statements with
  | [] => some r
  | s :: rest => (resolveStmt r s).bind fun r1 => resolveStmts r1 rest
termination_by sizeOf statements

end

/-! ## Concrete fixtures

A tiny class `A { m() {} }`, two instances of it sharing the method table,
and a heap holding one scope (the globals, index 0) and the two instances'
empty field maps (indices 0 and 1).  Used by the concrete theorems below. -/

/-- The name token of class `A`. -/
def tokA : Token := ⟨.identifier 10 "A", "A", 1⟩

/-- The name token of method `m`. -/
def tokM : Token := ⟨.identifier 11 "m", "m", 1⟩

/-- The definition of method `m`: no parameters, empty body. -/
def mDef : FunctionDef := .mk tokM [] []

/-- The runtime method `m`, closing over scope 0, not an initializer. -/
def mFun : Function := .mk mDef 0 false

/-- `class A { m() {} }` as a runtime class. -/
def classA : Class := .mk tokA none [("m", mFun)]

/-- One scope (index 0), two empty field maps (indices 0 and 1). -/
def heap0 : Heap := ⟨[⟨[], none⟩], [[], []]⟩

/-- An instance of `A` whose fields live in map 0. -/
def instX : Instance := .mk classA 0

/-- A second, distinct instance of `A` whose fields live in map 1. -/
def instY : Instance := .mk classA 1

/-- The value is a `Class` callable. -/
def isClassValue : Object → Bool
  | .callable (.klass _) => true
  | _ => false

/-! ## C8 — division -/

/-- C8: for every binary `/` whose operands evaluated to Numbers, the
result is the IEEE quotient when the right operand is not IEEE-equal to
`0`, and the runtime error `Division by zero.` (at the operator token) when
it is. -/
theorem division_by_zero_guard (fuel : Nat) (h : Heap) (lex : String)
    (line : Nat) (a b : F64) :
    visitBinaryValues fuel h (.number a) ⟨.slash, lex, line⟩ (.number b)
      = some (if F64.beq b F64.zero then
            .error (.error ⟨.slash, lex, line⟩ "Division by zero.")
          else .ok (.number (F64.div a b))) := by
  cases hb : F64.beq b F64.zero <;> simp [visitBinaryValues, hb]

/-! ## C1 — property access returns class methods unbound -/

/-- C1: the code at the failing input.  `x.m` on an instance of
`A { m() {} }` with no fields: `visit_get` answers with the method carrying
the *method table's own* closure (scope 0) — unbound — whereas
`Function::bind` on that instance yields a function with a fresh
`this`-scope closure (scope 1), a different value.  The claim (with the
spec) says the method comes back bound to the instance. -/
theorem get_property_method_unbound_bug :
    visitGetValue heap0 (.instance instX) tokM
      = some (.ok (.callable (.function mFun)))
    ∧ (mFun.bind heap0 instX).2 = Function.mk mDef 1 false
    ∧ Function.mk mDef 1 false ≠ mFun := by
  refine ⟨rfl, rfl, ?_⟩
  intro hcontra
  have hclo := congrArg Function.closure hcontra
  simp [Function.closure, mFun] at hclo

/-! ## C7 — Object equality: NaN breaks reflexivity -/

/-- C7 counterexample: the Object `Number(NaN)` does not compare equal to
itself (IEEE equality on the payload), refuting unrestricted per-tag
reflexivity. -/
theorem object_equality_nan_not_reflexive :
    objectEq 1 ⟨[], []⟩ (.number .nan) (.number .nan) = some false := rfl

/-! ## C6 — callables from `x.m` compare equal across instances -/

/-- C6 counterexample: two *distinct* instances of the same class; `x.m`
and `y.m` both evaluate to the very same unbound method value, which
compares equal to itself under Object equality — against the claim that
equality holds only when the two evaluations were on the same instance. -/
theorem method_values_equal_across_instances :
    instX ≠ instY
    ∧ visitGetValue heap0 (.instance instX) tokM
        = some (.ok (.callable (.function mFun)))
    ∧ visitGetValue heap0 (.instance instY) tokM
        = some (.ok (.callable (.function mFun)))
    ∧ objectEq 1 heap0 (.callable (.function mFun))
        (.callable (.function mFun)) = some true := by
  refine ⟨?_, rfl, rfl, rfl⟩
  intro hcontra
  have hf := congrArg Instance.fields hcontra
  simp [Instance.fields, instX, instY] at hf

/-! ## C10 — `to_name` panics on the `super` tokens the scanner mints -/

/-- C10: the code at the failing input.  Scanning `super` mints the token
`Super(0)`; `Token::to_name` on it hits `panic!("token is not an
identifier")` (`none`); consequently the resolver's `visit_super`, which
feeds the `super` keyword token to `resolve_local`, panics on any program
containing a `super` expression. -/
theorem to_name_panics_on_super_token :
    (scan "super").tokens.head? = some ⟨.superKw 0, "super", 1⟩
    ∧ Token.toName ⟨.superKw 0, "super", 1⟩ = none
    ∧ resolveExpr { Resolver.new with classScope := .subclass }
        (.superExpr ⟨.superKw 0, "super", 1⟩ tokM) = none := by
  refine ⟨rfl, rfl, ?_⟩
  simp [resolveExpr, Resolver.resolveLocal, Token.toName, Resolver.new]

/-! ## Helper lemmas about Rust equality and reflexivity -/

/-- IEEE equality is reflexive away from NaN. -/
theorem F64.beq_refl (v : F64) (h : v.isNan = false) : F64.beq v v = true := by
  cases v <;> simp_all [F64.beq, F64.isNan]

/-- `TokenType` Rust equality is reflexive on a token whose kind carries no
NaN. -/
theorem Token.beq_type_refl (t : Token) (h : Token.noNanType t = true) :
    TokenType.beqRust t.tokenType t.tokenType = true := by
  cases htt : t.tokenType <;> simp [TokenType.beqRust]
  case number v =>
    have hv : v.isNan = false := by simpa [Token.noNanType, htt] using h
    exact F64.beq_refl v hv

/-- `Class` Rust equality is reflexive when the name token carries no
NaN. -/
theorem class_beq_self (c : Class) (h : Token.noNanType c.name = true) :
    Class.beqRust c c = true := Token.beq_type_refl c.name h

/-- `Callable` Rust equality is reflexive when the name token its
comparison looks at carries no NaN. -/
theorem callable_beq_self (c : Callable)
    (h : Callable.noNanName c = true) : Callable.beqRust c c = true := by
  cases c with
  | klass k => exact class_beq_self k (by simpa [Callable.noNanName] using h)
  | function f =>
      simp only [Callable.beqRust, Function.beqRust]
      have := Token.beq_type_refl f.definition.name
        (by simpa [Callable.noNanName] using h)
      simp [this]
  | native n => simp [Callable.beqRust]

/-- In a map with pairwise-distinct keys, membership determines lookup. -/
theorem lookup_of_mem_nodup {m : List (String × Object)} {k : String}
    {v : Object} (hnd : keysNodup m = true) (hmem : (k, v) ∈ m) :
    m.lookup k = some v := by
  induction m with
  | nil => cases hmem
  | cons head rest ih =>
      obtain ⟨k0, v0⟩ := head
      have hnd' : keysNodup rest = true := by
        simp [keysNodup, List.nodup_cons] at hnd ⊢
        exact hnd.2
      rcases List.mem_cons.mp hmem with heq | htail
      · obtain ⟨hk, hv⟩ := Prod.mk.injEq k v k0 v0 ▸ heq
        subst hk; subst hv
        simp [List.lookup]
      · have hk0 : k ≠ k0 := by
          intro hkk; subst hkk
          simp [keysNodup, List.nodup_cons] at hnd
          exact hnd.1 v htail
        simp [List.lookup, beq_eq_false_iff_ne.mpr hk0]
        exact ih hnd' htail

/-- A successful `valuesAllWith` certifies every value. -/
theorem valuesAllWith_mem {p : Object → Option Bool}
    {m : List (String × Object)} (hall : valuesAllWith p m = some true) :
    ∀ x ∈ m, p x.2 = some true := by
  induction m with
  | nil => intro x hx; cases hx
  | cons head rest ih =>
      intro x hx
      simp only [valuesAllWith] at hall
      rcases hpv : p head.2 with _ | b
      · rw [show (head.2) = (head.1, head.2).2 from rfl] at hpv
        simp [hpv] at hall
      · cases b
        · rw [show (head.2) = (head.1, head.2).2 from rfl] at hpv
          simp [hpv] at hall
        · rcases List.mem_cons.mp hx with heq | htail
          · subst heq
            simpa using hpv
          · rw [show (head.2) = (head.1, head.2).2 from rfl] at hpv
            simp [hpv] at hall
            exact ih hall x htail

/-- The entry walk of `HashMap::eq` succeeds on a self-comparison whose
entries all look up to themselves and compare equal to themselves. -/
theorem entriesMatchWith_self {f : Object → Object → Option Bool}
    {m2 m1 : List (String × Object)}
    (hsub : ∀ x ∈ m1, m2.lookup x.1 = some x.2 ∧ f x.2 x.2 = some true) :
    entriesMatchWith f m2 m1 = some true := by
  induction m1 with
  | nil => rfl
  | cons head rest ih =>
      obtain ⟨k, v⟩ := head
      obtain ⟨hlk, hfv⟩ := hsub (k, v) (List.mem_cons_self _ _)
      simp only [entriesMatchWith, hlk, hfv]
      exact ih fun x hx => hsub x (List.mem_cons_of_mem _ hx)

/-- The tag (variant) of an `Object`. -/
def Object.tag : Object → Nat
  | .nil => 0
  | .boolean _ => 1
  | .number _ => 2
  | .string _ => 3
  | .callable _ => 4
  | .instance _ => 5

/-! ## C7 — Object equality, amended -/

/-- C7 amended: Object equality is reflexive within each tag for every
Object certified NaN-free (`Object.noNan`; the counterexample is
`Number(NaN)`), every cross-tag comparison is false, and `nil == nil`
holds. -/
theorem object_equality_reflexive_and_cross_tag :
    (∀ fuel h v, Object.noNan fuel h v = some true →
        objectEq fuel h v v = some true)
    ∧ (∀ fuel h (v w : Object), v.tag ≠ w.tag →
        objectEq (fuel + 1) h v w = some false)
    ∧ ∀ fuel h, objectEq (fuel + 1) h .nil .nil = some true := by
  refine ⟨?_, ?_, fun _ _ => rfl⟩
  · intro fuel
    induction fuel with
    | zero => intro h v hnn; simp [Object.noNan] at hnn
    | succ n ih =>
        intro h v hnn
        cases v with
        | nil => rfl
        | boolean b => simp [objectEq]
        | number x =>
            have hx : x.isNan = false := by
              simpa [Object.noNan] using hnn
            simp [objectEq, F64.beq_refl x hx]
        | string s => simp [objectEq]
        | callable c =>
            have hc : Callable.noNanName c = true := by
              simpa [Object.noNan] using hnn
            simp [objectEq, callable_beq_self c hc]
        | «instance» i =>
            simp only [Object.noNan] at hnn
            by_cases hname : Token.noNanType i.cls.name = true
            · rw [if_neg (by simp [hname])] at hnn
              by_cases hnd : keysNodup (h.fieldsAt i.fields) = true
              · rw [if_neg (by simp [hnd])] at hnn
                simp only [objectEq]
                rw [if_neg (by simp [class_beq_self i.cls hname])]
                rw [if_neg (by simp)]
                exact entriesMatchWith_self fun x hx =>
                  ⟨lookup_of_mem_nodup hnd hx,
                   ih h x.2 (valuesAllWith_mem hnn x hx)⟩
              · rw [if_pos (by simp_all)] at hnn
                simp at hnn
            · rw [if_pos (by simp_all)] at hnn
              simp at hnn
  · intro fuel h v w hne
    cases v <;> cases w <;> first | exact absurd rfl hne | rfl

/-- C7 witness: the amended reflexivity applied to `Boolean(true)` (a
NaN-free Object) and the cross-tag clause applied to `nil` versus
`Boolean(true)`. -/
theorem object_equality_reflexive_witness :
    objectEq 1 ⟨[], []⟩ (.boolean true) (.boolean true) = some true
    ∧ objectEq 1 ⟨[], []⟩ .nil (.boolean true) = some false :=
  ⟨object_equality_reflexive_and_cross_tag.1 1 ⟨[], []⟩ (.boolean true) rfl,
   object_equality_reflexive_and_cross_tag.2.1 0 ⟨[], []⟩ .nil
     (.boolean true) (by decide)⟩

/-! ## C6 — method-value equality, amended -/

/-- C6 amended: two evaluations of `x.m` (field miss, method hit) yield
the methods unbound, and the two results compare equal exactly when the
two *method definitions* compare equal as `Function`s (same name-token
kind, pointer-equal closure) — the instances play no role; in particular
the same method found on both lookups gives equal values whatever the
instances. -/
theorem property_method_equality_characterization (h : Heap)
    (i1 i2 : Instance) (t1 t2 : Token) (k1 k2 : Nat) (name : String)
    (f1 f2 : Function) (fuel : Nat)
    (ht1 : t1.toName = some (k1, name))
    (ht2 : t2.toName = some (k2, name))
    (hm1 : (h.fieldsAt i1.fields).lookup name = none)
    (hm2 : (h.fieldsAt i2.fields).lookup name = none)
    (hf1 : i1.cls.findMethod name = some f1)
    (hf2 : i2.cls.findMethod name = some f2) :
    visitGetValue h (.instance i1) t1 = some (.ok (.callable (.function f1)))
    ∧ visitGetValue h (.instance i2) t2
        = some (.ok (.callable (.function f2)))
    ∧ objectEq (fuel + 1) h (.callable (.function f1))
        (.callable (.function f2)) = some (Function.beqRust f1 f2)
    ∧ (f2 = f1 → Token.noNanType f1.definition.name = true →
        Function.beqRust f1 f2 = true) := by
  refine ⟨?_, ?_, rfl, ?_⟩
  · simp [visitGetValue, ht1, Instance.get, hm1, hf1]
  · simp [visitGetValue, ht2, Instance.get, hm2, hf2]
  · intro h21 hnn
    subst h21
    simp [Function.beqRust, Token.beq_type_refl _ hnn]

/-- C6 witness: the amended characterization applied to the two concrete
instances `instX`, `instY` of `classA` and the method `m` — the same
method value on both, and the equality test succeeds. -/
theorem property_method_equality_witness :
    visitGetValue heap0 (.instance instX) tokM
      = some (.ok (.callable (.function mFun)))
    ∧ Function.beqRust mFun mFun = true := by
  have hthm := property_method_equality_characterization heap0 instX instY
    tokM tokM 11 11 "m" mFun mFun 0 rfl rfl rfl rfl rfl rfl
  exact ⟨hthm.1, hthm.2.2.2 rfl rfl⟩

/-! ## C4 — the superclass check (modelled from the spec, §4.6) -/

/-- C4: executing a class declaration that names a parent evaluates the
parent reference; a non-`Class` value is the runtime error
`Superclass must be a class.`, and a `Class` value succeeds with the built
class recording the parent. -/
theorem class_decl_superclass_check (v : Object) (tok : Token) (h : Heap)
    (e : Nat) (d : ClassDef) :
    (isClassValue v = false →
      evalSuperclass v tok
        = .error (.error tok "Superclass must be a class."))
    ∧ ∀ c, v = .callable (.klass c) →
        evalSuperclass v tok = .ok c
        ∧ ∀ hc cls, visitClassModel h e d (some c) = some (hc, cls) →
            cls.parent = some c := by
  constructor
  · intro hv
    cases v with
    | callable c =>
        cases c with
        | klass k => simp [isClassValue] at hv
        | function f => rfl
        | native n => rfl
    | nil => rfl
    | boolean b => rfl
    | number x => rfl
    | string s => rfl
    | «instance» i => rfl
  · intro c hv
    subst hv
    refine ⟨rfl, ?_⟩
    intro hc cls hm
    simp only [visitClassModel] at hm
    split at hm
    · exact absurd hm (by simp)
    · split at hm
      · exact absurd hm (by simp)
      · obtain ⟨-, hcls⟩ := Prod.mk.injEq .. ▸ Option.some.injEq .. ▸ hm
        subst hcls
        rfl

/-- C4 witness: the check applied to a non-class value (`nil`) and to the
concrete class value `classA`, with a concrete class declaration `B`
recording `A` as parent. -/
theorem class_decl_superclass_witness :
    evalSuperclass .nil tokA
      = .error (.error tokA "Superclass must be a class.")
    ∧ evalSuperclass (.callable (.klass classA)) tokA = .ok classA := by
  refine ⟨(class_decl_superclass_check .nil tokA heap0 0
      (.mk tokA none [])).1 rfl, ?_⟩
  exact ((class_decl_superclass_check (.callable (.klass classA)) tokA heap0 0
      (.mk tokA none [])).2 classA rfl).1

/-! ## C2 — `Function::call`'s return protocol -/

/-- The dispatch of `Function::call` on the body's outcome, as a reusable
lemma (quantifying over every body execution). -/
theorem callReturnSpec (f : Function) (h h2 h3 : Heap)
    (args : List Object) (exec : BlockExec) (result : Option Unwind)
    (hlen : f.definition.parameters.length = args.length)
    (hparams : defineParameters (h.newWithEnclosing f.closure).2
        (h.newWithEnclosing f.closure).1 f.definition.parameters args
        = some h2)
    (hexec : exec h2 (h.newWithEnclosing f.closure).2 = (h3, result)) :
    (f.isInitializer = true →
      ∀ tv, h3.getAt f.closure 0 "this" = some tv →
        (result = none ∨ (∃ kw v, result = some (.ret kw v))) →
        f.call h args exec = (h3, some (.ok tv)))
    ∧ (f.isInitializer = false →
        (result = none → f.call h args exec = (h3, some (.ok .nil)))
        ∧ ∀ kw v, result = some (.ret kw v) →
            f.call h args exec = (h3, some (.ok v))) := by
  have hcall : f.call h args exec
      = (let (h3x, resultx) := exec h2 (h.newWithEnclosing f.closure).2
         match resultx with
         | some (.ret _ object) =>
             if f.isInitializer then
               (h3x, (h3x.getAt f.closure 0 "this").map Except.ok)
             else (h3x, some (.ok object))
         | some (.error token message) =>
             (h3x, some (.error (.error token message)))
         | none =>
             if f.isInitializer then
               (h3x, (h3x.getAt f.closure 0 "this").map Except.ok)
             else (h3x, some (.ok .nil))) := by
    simp [Function.call, hparams, hlen]
  rw [hexec] at hcall
  constructor
  · intro hinit tv htv hres
    rcases hres with hres | ⟨kw, v, hres⟩ <;> subst hres <;>
      simp [hcall, hinit, htv]
  · intro hinit
    constructor
    · intro hres; subst hres; simp [hcall, hinit]
    · intro kw v hres; subst hres; simp [hcall, hinit]

/-- C2: quantifying over every possible body execution (`exec`, its
post-heap `h3` and outcome `result`): a call of a `Function` whose
is-initializer flag is set returns the value bound to `this` at depth 0 of
the function's closure, both on normal exit and on a `Return` unwind (the
operand is discarded); a non-initializer call returns `Nil` on normal exit
and the `Return` operand on an explicit return. -/
theorem function_call_return_protocol (f : Function) (h h2 h3 : Heap)
    (args : List Object) (exec : BlockExec) (result : Option Unwind)
    (hlen : f.definition.parameters.length = args.length)
    (hparams : defineParameters (h.newWithEnclosing f.closure).2
        (h.newWithEnclosing f.closure).1 f.definition.parameters args
        = some h2)
    (hexec : exec h2 (h.newWithEnclosing f.closure).2 = (h3, result)) :
    (f.isInitializer = true →
      ∀ tv, h3.getAt f.closure 0 "this" = some tv →
        (result = none ∨ (∃ kw v, result = some (.ret kw v))) →
        f.call h args exec = (h3, some (.ok tv)))
    ∧ (f.isInitializer = false →
        (result = none → f.call h args exec = (h3, some (.ok .nil)))
        ∧ ∀ kw v, result = some (.ret kw v) →
            f.call h args exec = (h3, some (.ok v))) :=
  callReturnSpec f h h2 h3 args exec result hlen hparams hexec

/-- C2 witness: a zero-parameter initializer whose closure (scope 0) binds
`this` to `Boolean(true)`, with a body that does nothing — the call
returns that `this`. -/
theorem function_call_return_witness :
    (Function.mk mDef 0 true).call ⟨[⟨[("this", .boolean true)], none⟩], []⟩
        [] (fun hh _ => (hh, none))
      = (⟨[⟨[("this", .boolean true)], none⟩, ⟨[], some 0⟩], []⟩,
         some (.ok (.boolean true))) := by
  have hthm := function_call_return_protocol (Function.mk mDef 0 true)
    ⟨[⟨[("this", .boolean true)], none⟩], []⟩
    ⟨[⟨[("this", .boolean true)], none⟩, ⟨[], some 0⟩], []⟩
    ⟨[⟨[("this", .boolean true)], none⟩, ⟨[], some 0⟩], []⟩
    [] (fun hh _ => (hh, none)) none rfl rfl rfl
  exact hthm.1 rfl (.boolean true) rfl (Or.inl rfl)

/-! ## Heap frame lemmas (for C3) -/

/-- `env::define` on one scope leaves every other scope unchanged. -/
theorem Heap.envAt_define_ne (h : Heap) (e j : Nat) (n : String)
    (v : Object) (hne : j ≠ e) : (h.define e n v).envAt j = h.envAt j := by
  unfold Heap.define
  cases hget : h.envs[e]? with
  | none => rfl
  | some s => simp [Heap.envAt, List.getElem?_set_ne (Ne.symm hne)]

/-- Allocating a fresh scope leaves the existing scopes readable
unchanged. -/
theorem Heap.envAt_newWithEnclosing_lt (h : Heap) (p j : Nat)
    (hj : j < h.envs.length) :
    ((h.newWithEnclosing p).1).envAt j = h.envAt j := by
  simp [Heap.newWithEnclosing, Heap.envAt, List.getElem?_append_left hj]

/-- The scope `new_with_enclosing` allocates is empty and encloses its
parent. -/
theorem Heap.envAt_newWithEnclosing_self (h : Heap) (p : Nat) :
    ((h.newWithEnclosing p).1).envAt h.envs.length
      = some ⟨[], some p⟩ := by
  simp [Heap.newWithEnclosing, Heap.envAt, List.getElem?_concat_length]

/-- `env::define` writes through to the named scope. -/
theorem Heap.envAt_define_self (h : Heap) (e : Nat) (n : String)
    (v : Object) (s : Scope) (hget : h.envAt e = some s) :
    (h.define e n v).envAt e
      = some ⟨mapInsert n v s.values, s.enclosing⟩ := by
  have hget' : h.envs[e]? = some s := hget
  have hlt : e < h.envs.length := by
    by_contra hge
    rw [List.getElem?_eq_none (by omega)] at hget'
    exact Option.noConfusion hget'
  unfold Heap.define
  rw [hget']
  simp [Heap.envAt, List.getElem?_set_eq_of_lt _ hlt]

/-- The parameter-binding loop only writes the local scope. -/
theorem defineParameters_envAt_ne (e j : Nat) (hne : j ≠ e) :
    ∀ (ps : List Token) (args : List Object) (h h' : Heap),
      defineParameters e h ps args = some h' → h'.envAt j = h.envAt j := by
  intro ps
  induction ps with
  | nil =>
      intro args h h' hdp
      simp only [defineParameters, Option.some.injEq] at hdp
      subst hdp; rfl
  | cons p ps ih =>
      intro args h h' hdp
      cases args with
      | nil =>
          simp only [defineParameters, Option.some.injEq] at hdp
          subst hdp; rfl
      | cons a rest =>
          simp only [defineParameters] at hdp
          cases htn : p.toName with
          | none => rw [htn] at hdp; exact Option.noConfusion hdp
          | some kn =>
              rw [htn] at hdp
              rw [ih rest (h.define e kn.2 a) h' hdp]
              exact h.envAt_define_ne e j kn.2 a hne

/-! ## C3 — `Class::call`, the constructor protocol -/

/-- The bound initializer `Class::call` builds: `init` bound to the fresh
instance. -/
def boundInit (c : Class) (h : Heap) (initF : Function) : Function :=
  (initF.bind (Instance.new h c).1 (Instance.new h c).2).2

/-- The heap after `Class::call` has allocated the fresh instance and bound
`init` to it. -/
def boundHeap (c : Class) (h : Heap) (initF : Function) : Heap :=
  (initF.bind (Instance.new h c).1 (Instance.new h c).2).1

/-- A body execution that does nothing: the heap is unchanged and the block
falls off the end. -/
def execNoop : BlockExec := fun hh _ => (hh, none)

/-- Binding `init` leaves one more scope than the input heap had. -/
theorem boundHeap_envs_length (c : Class) (h : Heap) (initF : Function) :
    (boundHeap c h initF).envs.length = h.envs.length + 1 := by
  unfold boundHeap Function.bind Heap.newWithEnclosing Heap.define
  simp [Instance.new, Heap.newFields, Heap.envAt, List.getElem?_concat_length]

/-- The scope `Function::bind` allocates holds exactly
`this ↦ the fresh instance` and encloses the initializer's closure. -/
theorem boundHeap_envAt_this (c : Class) (h : Heap) (initF : Function) :
    (boundHeap c h initF).envAt h.envs.length
      = some ⟨[("this", .instance (.mk c h.fieldMaps.length))],
              some initF.closure⟩ := by
  unfold boundHeap Function.bind
  exact Heap.envAt_define_self _ _ _ _ _
    (Heap.envAt_newWithEnclosing_self ⟨h.envs, h.fieldMaps ++ [[]]⟩
      initF.closure)

/-- C3: `Class::call` allocates a fresh instance; with no `init` method on
the chain the instance is returned directly; the class's arity is the
`init` arity when present, else 0; and with an `init` method (flagged
is-initializer, as the spec's `visit_class` builds it), quantifying over
every body execution that leaves the bound `this` reading intact, the call
binds `init` to the new instance, calls it with the arguments, and returns
the instance — not the init body's return operand. -/
theorem class_call_constructor_protocol (c : Class) (h : Heap)
    (args : List Object) (exec : BlockExec) :
    Instance.new h c
        = (⟨h.envs, h.fieldMaps ++ [[]]⟩, .mk c h.fieldMaps.length)
    ∧ (c.findMethod "init" = none →
        c.call h args exec
          = (⟨h.envs, h.fieldMaps ++ [[]]⟩,
             some (.ok (.instance (.mk c h.fieldMaps.length)))))
    ∧ (∀ i, c.findMethod "init" = some i → c.arity = i.arity)
    ∧ (c.findMethod "init" = none → c.arity = some 0)
    ∧ ∀ initF h2 h3 result,
        c.findMethod "init" = some initF →
        initF.isInitializer = true →
        initF.definition.parameters.length = args.length →
        defineParameters
            ((boundHeap c h initF).newWithEnclosing
              (boundInit c h initF).closure).2
            ((boundHeap c h initF).newWithEnclosing
              (boundInit c h initF).closure).1
            initF.definition.parameters args = some h2 →
        exec h2 ((boundHeap c h initF).newWithEnclosing
              (boundInit c h initF).closure).2 = (h3, result) →
        h3.getAt (boundInit c h initF).closure 0 "this"
          = h2.getAt (boundInit c h initF).closure 0 "this" →
        (result = none ∨ (∃ kw v, result = some (.ret kw v))) →
        c.call h args exec
          = (h3, some (.ok (.instance (.mk c h.fieldMaps.length)))) := by
  refine ⟨rfl, ?_, ?_, ?_, ?_⟩
  · intro hnone
    unfold Class.call
    rw [hnone]
    rfl
  · intro i hi
    simp [Class.arity, hi]
  · intro hnone; simp [Class.arity, hnone]
  · intro initF h2 h3 result hfind hinit hlen hparams hexec hpres hres
    have hcc : c.call h args exec
        = (boundInit c h initF).call (boundHeap c h initF) args exec := by
      unfold Class.call boundInit boundHeap
      rw [hfind]
    have hclo : (boundInit c h initF).closure = h.envs.length := rfl
    have hlocal : ((boundHeap c h initF).newWithEnclosing
        (boundInit c h initF).closure).2
          = (boundHeap c h initF).envs.length := rfl
    have hne : h.envs.length
        ≠ ((boundHeap c h initF).newWithEnclosing
            (boundInit c h initF).closure).2 := by
      rw [hlocal, boundHeap_envs_length]
      omega
    have hh2 : h2.envAt h.envs.length
        = (boundHeap c h initF).envAt h.envs.length := by
      rw [defineParameters_envAt_ne _ _ hne _ _ _ _ hparams]
      exact Heap.envAt_newWithEnclosing_lt _ _ _
        (by rw [boundHeap_envs_length]; omega)
    have hthis : h2.getAt (boundInit c h initF).closure 0 "this"
        = some (.instance (.mk c h.fieldMaps.length)) := by
      rw [hclo]
      show ((h2.ancestor h.envs.length 0).bind fun a =>
        (h2.envAt a).bind fun s => s.values.lookup "this") = _
      simp only [Heap.ancestor, Option.bind]
      rw [hh2, boundHeap_envAt_this]
      rfl
    rw [hcc]
    exact (callReturnSpec (boundInit c h initF) (boundHeap c h initF) h2 h3
      args exec result hlen hparams hexec).1 hinit _
      (hpres.trans hthis) hres

/-- The name token of class `B`. -/
def tokB : Token := ⟨.identifier 12 "B", "B", 1⟩

/-- The name token of `init`. -/
def tokInit : Token := ⟨.identifier 13 "init", "init", 1⟩

/-- The definition of `init`: no parameters, empty body. -/
def initDef : FunctionDef := .mk tokInit [] []

/-- The runtime `init` method, closing over scope 0, flagged
is-initializer. -/
def initFun : Function := .mk initDef 0 true

/-- `class B { init() {} }` as a runtime class. -/
def classB : Class := .mk tokB none [("init", initFun)]

/-- C3 witness: calling `class B { init() {} }` with no arguments on the
concrete heap returns the fresh instance (field map 2), with `init` bound
to it in the new scope 1. -/
theorem class_call_constructor_witness :
    classB.call heap0 [] execNoop
      = (⟨[⟨[], none⟩,
           ⟨[("this", .instance (.mk classB 2))], some 0⟩,
           ⟨[], some 1⟩], [[], [], []]⟩,
         some (.ok (.instance (.mk classB 2)))) :=
  (class_call_constructor_protocol classB heap0 [] execNoop).2.2.2.2
    initFun
    ⟨[⟨[], none⟩, ⟨[("this", .instance (.mk classB 2))], some 0⟩,
      ⟨[], some 1⟩], [[], [], []]⟩
    ⟨[⟨[], none⟩, ⟨[("this", .instance (.mk classB 2))], some 0⟩,
      ⟨[], some 1⟩], [[], [], []]⟩
    none rfl rfl rfl rfl rfl rfl (Or.inl rfl)

/-! ## C5 — which scanner diagnostics set the stumbled flag

The source sets `stumbled` in exactly two places: the unterminated-string
arm of `string` and the failed-parse arm of `number`.  The final arm of
`scan_token` reports `Unexpected character.` *without* setting the flag.
The invariant below says the flag tracks exactly the two flag-setting
messages, for every source text. -/

/-- The diagnostic messages whose report also sets the stumbled flag. -/
def stumbleDiag (d : Nat × String) : Bool :=
  d.2 == "Unterminated string."
    || d.2 == "Number cannot be represented with 64 bits."

/-- The scan invariant: the flag equals the presence of a flag-setting
diagnostic. -/
def ScanInv (s : Scanner) : Prop := s.stumbled = s.diags.any stumbleDiag

theorem advance_stumbled (s : Scanner) :
    (s.advance).2.stumbled = s.stumbled := rfl

theorem advance_diags (s : Scanner) : (s.advance).2.diags = s.diags := rfl

theorem advanceIf_stumbled (s : Scanner) (c : Char) :
    ((s.advanceIf c).2).stumbled = s.stumbled := by
  unfold Scanner.advanceIf
  split
  · rfl
  · split <;> rfl

theorem advanceIf_diags (s : Scanner) (c : Char) :
    ((s.advanceIf c).2).diags = s.diags := by
  unfold Scanner.advanceIf
  split
  · rfl
  · split <;> rfl

theorem addToken_stumbled (s : Scanner) (tt : TokenType) :
    (s.addToken tt).stumbled = s.stumbled := rfl

theorem addToken_diags (s : Scanner) (tt : TokenType) :
    (s.addToken tt).diags = s.diags := rfl

theorem addTokenIf_stumbled (s : Scanner) (c : Char) (a b : TokenType) :
    (s.addTokenIf c a b).stumbled = s.stumbled := by
  have h2 := advanceIf_stumbled s c
  unfold Scanner.addTokenIf
  rcases hadv : s.advanceIf c with ⟨hit, s1⟩
  rw [hadv] at h2
  cases hit <;> simp only [addToken_stumbled] <;> exact h2

theorem addTokenIf_diags (s : Scanner) (c : Char) (a b : TokenType) :
    (s.addTokenIf c a b).diags = s.diags := by
  have h2 := advanceIf_diags s c
  unfold Scanner.addTokenIf
  rcases hadv : s.advanceIf c with ⟨hit, s1⟩
  rw [hadv] at h2
  cases hit <;> simp only [addToken_diags] <;> exact h2

theorem commentLoop_stumbled (fuel : Nat) (s : Scanner) :
    (commentLoop fuel s).stumbled = s.stumbled := by
  induction fuel generalizing s with
  | zero => rfl
  | succ n ih =>
      unfold commentLoop
      split
      · rw [ih, advance_stumbled]
      · rfl

theorem commentLoop_diags (fuel : Nat) (s : Scanner) :
    (commentLoop fuel s).diags = s.diags := by
  induction fuel generalizing s with
  | zero => rfl
  | succ n ih =>
      unfold commentLoop
      split
      · rw [ih, advance_diags]
      · rfl

theorem stringLoop_stumbled (fuel : Nat) (s : Scanner) :
    (stringLoop fuel s).stumbled = s.stumbled := by
  induction fuel generalizing s with
  | zero => rfl
  | succ n ih =>
      unfold stringLoop
      split
      · rw [ih]
        split <;> rfl
      · rfl

theorem stringLoop_diags (fuel : Nat) (s : Scanner) :
    (stringLoop fuel s).diags = s.diags := by
  induction fuel generalizing s with
  | zero => rfl
  | succ n ih =>
      unfold stringLoop
      split
      · rw [ih]
        split <;> rfl
      · rfl

theorem digitLoop_stumbled (fuel : Nat) (s : Scanner) :
    (digitLoop fuel s).stumbled = s.stumbled := by
  induction fuel generalizing s with
  | zero => rfl
  | succ n ih =>
      unfold digitLoop
      split
      · rw [ih, advance_stumbled]
      · rfl

theorem digitLoop_diags (fuel : Nat) (s : Scanner) :
    (digitLoop fuel s).diags = s.diags := by
  induction fuel generalizing s with
  | zero => rfl
  | succ n ih =>
      unfold digitLoop
      split
      · rw [ih, advance_diags]
      · rfl

theorem identLoop_stumbled (fuel : Nat) (s : Scanner) :
    (identLoop fuel s).stumbled = s.stumbled := by
  induction fuel generalizing s with
  | zero => rfl
  | succ n ih =>
      unfold identLoop
      split
      · rw [ih, advance_stumbled]
      · rfl

theorem identLoop_diags (fuel : Nat) (s : Scanner) :
    (identLoop fuel s).diags = s.diags := by
  induction fuel generalizing s with
  | zero => rfl
  | succ n ih =>
      unfold identLoop
      split
      · rw [ih, advance_diags]
      · rfl

theorem stringLit_inv {s : Scanner} (hs : ScanInv s) :
    ScanInv s.stringLit := by
  unfold ScanInv at hs ⊢
  by_cases hend : (stringLoop (s.source.length + 1) s).isAtEnd = true
  · simp [Scanner.stringLit, hend, Scanner.scannerError, stringLoop_diags,
      List.any_append, stumbleDiag]
  · simp [Scanner.stringLit, hend, addToken_stumbled, addToken_diags,
      advance_stumbled, advance_diags, stringLoop_stumbled,
      stringLoop_diags, hs]

theorem number_inv {s : Scanner} (hs : ScanInv s) : ScanInv s.number := by
  unfold ScanInv at hs ⊢
  unfold Scanner.number
  dsimp only
  split
  · simp [addToken_stumbled, addToken_diags, digitLoop_stumbled,
      digitLoop_diags, advance_stumbled, advance_diags, apply_ite,
      ite_self, hs]
  · simp [Scanner.scannerError, digitLoop_diags, advance_diags,
      digitLoop_stumbled, List.any_append, stumbleDiag, apply_ite,
      ite_self]

theorem identifier_stumbled (s : Scanner) :
    (s.identifier).stumbled = s.stumbled := by
  unfold Scanner.identifier
  dsimp only
  split <;> simp [addToken_stumbled, Scanner.newKey, identLoop_stumbled]

theorem identifier_diags (s : Scanner) :
    (s.identifier).diags = s.diags := by
  unfold Scanner.identifier
  dsimp only
  split <;> simp [addToken_diags, Scanner.newKey, identLoop_diags]

theorem slash_stumbled (s : Scanner) : (s.slash).stumbled = s.stumbled := by
  have h2 := advanceIf_stumbled s '/'
  unfold Scanner.slash
  rcases hadv : s.advanceIf '/' with ⟨hit, s1⟩
  rw [hadv] at h2
  cases hit <;> simp [commentLoop_stumbled, addToken_stumbled] <;> exact h2

theorem slash_diags (s : Scanner) : (s.slash).diags = s.diags := by
  have h2 := advanceIf_diags s '/'
  unfold Scanner.slash
  rcases hadv : s.advanceIf '/' with ⟨hit, s1⟩
  rw [hadv] at h2
  cases hit <;> simp [commentLoop_diags, addToken_diags] <;> exact h2

theorem stumbleDiag_unexpected (l : Nat) :
    stumbleDiag (l, "Unexpected character.") = false := rfl

theorem stumbleDiag_unterminated (l : Nat) :
    stumbleDiag (l, "Unterminated string.") = true := rfl

theorem stumbleDiag_number (l : Nat) :
    stumbleDiag (l, "Number cannot be represented with 64 bits.")
      = true := rfl

theorem scanTokenChar_inv {s : Scanner} (c : Char) (hs : ScanInv s) :
    ScanInv (s.scanTokenChar c) := by
  unfold Scanner.scanTokenChar
  split
  any_goals
    first
      | exact hs
      | exact stringLit_inv hs
      | (unfold ScanInv at hs ⊢
         simp only [addToken_stumbled, addToken_diags, addTokenIf_stumbled,
           addTokenIf_diags, slash_stumbled, slash_diags]
         exact hs)
  split
  · exact number_inv hs
  · split
    · unfold ScanInv at hs ⊢
      simp only [identifier_stumbled, identifier_diags]
      exact hs
    · unfold ScanInv at hs ⊢
      unfold Scanner.scannerError
      simp [List.any_append, stumbleDiag_unexpected, hs]

theorem scanToken_inv {s : Scanner} (hs : ScanInv s) :
    ScanInv s.scanToken := scanTokenChar_inv _ hs

theorem scanLoop_inv {s : Scanner} (fuel : Nat) (hs : ScanInv s) :
    ScanInv (scanLoop fuel s) := by
  induction fuel generalizing s with
  | zero => exact hs
  | succ n ih =>
      unfold scanLoop
      split
      · exact ih (scanToken_inv hs)
      · exact hs

/-- C5 counterexample: scanning `@` reports the lexical diagnostic
`Unexpected character.` but does not set the stumbled flag, and consuming
the scanner yields the token list (just EOF), not the `Scan` error
class. -/
theorem scanner_unexpected_char_not_stumbled :
    (scan "@").diags = [(1, "Unexpected character.")]
    ∧ (scan "@").stumbled = false
    ∧ (scan "@").consume = .ok [⟨.endOfFile, "\x00", 1⟩] := ⟨rfl, rfl, rfl⟩

/-- C5 amended: for every source text, the stumbled flag is set exactly
when an unterminated-string or unparsable-number diagnostic was reported
(an unexpected character is reported but ignored), consuming yields the
`Scan` error class exactly in that case and the token list otherwise, and
the token list is terminated by EOF. -/
theorem scanner_stumble_characterization (source : String) :
    (scan source).stumbled = (scan source).diags.any stumbleDiag
    ∧ (scan source).consume
        = (if (scan source).diags.any stumbleDiag then .error .scan
           else .ok (scan source).tokens)
    ∧ ∃ toks, (scan source).tokens
        = toks ++ [⟨.endOfFile, "\x00", (scan source).line⟩] := by
  have hinv : ScanInv (scan source) := scanLoop_inv _ rfl
  refine ⟨hinv, ?_, ⟨_, rfl⟩⟩
  unfold Scanner.consume
  rw [hinv]

/-! ## C9 — the resolver's return-context errors

The frame lemmas below say that every resolver visitor restores the
function context it was entered with, only appends to the diagnostics, and
never clears the stumbled flag.  With them, a top-level `return` statement
anywhere in a program forces the final state to be stumbled with the
`Can't return from top-level code.` diagnostic, and `consume` to yield the
`Resolve` error class. -/

/-- What every resolver step preserves: the function context comes back,
diagnostics are only appended, the stumbled flag is never cleared. -/
def ResolverFrame (r r' : Resolver) : Prop :=
  r'.functionScope = r.functionScope
  ∧ (∃ l, r'.diags = r.diags ++ l)
  ∧ (r.stumbled = true → r'.stumbled = true)

theorem ResolverFrame.refl (r : Resolver) : ResolverFrame r r :=
  ⟨rfl, ⟨[], by simp⟩, id⟩

theorem ResolverFrame.trans {r r1 r2 : Resolver}
    (a : ResolverFrame r r1) (b : ResolverFrame r1 r2) :
    ResolverFrame r r2 := by
  obtain ⟨af, ⟨al, ad⟩, as'⟩ := a
  obtain ⟨bf, ⟨bl, bd⟩, bs⟩ := b
  exact ⟨bf.trans af, ⟨al ++ bl, by rw [bd, ad, List.append_assoc]⟩,
    fun hs => bs (as' hs)⟩

theorem ResolverFrame.mem_diags {r r' : Resolver} {d : Token × String}
    (a : ResolverFrame r r') (hd : d ∈ r.diags) : d ∈ r'.diags := by
  obtain ⟨-, ⟨l, hl⟩, -⟩ := a
  rw [hl]
  exact List.mem_append_left _ hd

theorem stumble_frame (r : Resolver) (t : Token) (m : String) :
    ResolverFrame r (r.stumble t m) :=
  ⟨rfl, ⟨[(t, m)], rfl⟩, fun _ => rfl⟩

theorem beginScope_frame (r : Resolver) : ResolverFrame r r.beginScope :=
  ⟨rfl, ⟨[], by simp [Resolver.beginScope]⟩, id⟩

theorem endScope_frame (r : Resolver) : ResolverFrame r r.endScope :=
  ⟨rfl, ⟨[], by simp [Resolver.endScope]⟩, id⟩

theorem addToScope_frame (r : Resolver) (n : String) (b : Bool) :
    ResolverFrame r (r.addToScope n b) := by
  unfold Resolver.addToScope
  split
  · exact ResolverFrame.refl r
  · exact ⟨rfl, ⟨[], by simp⟩, id⟩

theorem declare_frame {r r' : Resolver} {name : Token}
    (h : r.declare name = some r') : ResolverFrame r r' := by
  unfold Resolver.declare at h
  split at h
  · exact (Option.some.injEq .. ▸ h) ▸ ResolverFrame.refl r
  · rcases Option.map_eq_some'.mp h with ⟨⟨k, n⟩, -, hr⟩
    subst hr
    dsimp only
    split
    · exact stumble_frame ..
    · exact addToScope_frame ..

theorem define_frame {r r' : Resolver} {name : Token}
    (h : r.define name = some r') : ResolverFrame r r' := by
  unfold Resolver.define at h
  rcases Option.map_eq_some'.mp h with ⟨⟨k, n⟩, -, hr⟩
  subst hr
  exact addToScope_frame ..

theorem resolveLocal_frame {r r' : Resolver} {name : Token}
    (h : r.resolveLocal name = some r') : ResolverFrame r r' := by
  unfold Resolver.resolveLocal at h
  rcases Option.map_eq_some'.mp h with ⟨⟨k, n⟩, -, hr⟩
  subst hr
  dsimp only
  split
  · exact ⟨rfl, ⟨[], by simp⟩, id⟩
  · exact ResolverFrame.refl r

theorem declareDefineParams_frame :
    ∀ (ps : List Token) {r r' : Resolver},
      declareDefineParams r ps = some r' → ResolverFrame r r' := by
  intro ps
  induction ps with
  | nil =>
      intro r r' h
      exact (Option.some.injEq .. ▸ h) ▸ ResolverFrame.refl r
  | cons p rest ih =>
      intro r r' h
      simp only [declareDefineParams] at h
      rcases Option.bind_eq_some.mp h with ⟨r1, h1, h2⟩
      rcases Option.bind_eq_some.mp h2 with ⟨r2, h3, h4⟩
      exact ((declare_frame h1).trans (define_frame h3)).trans (ih h4)

mutual

theorem resolveExprF (r : Resolver) (e : Expr) (r' : Resolver)
    (h : resolveExpr r e = some r') : ResolverFrame r r' := by
  cases e with
  | assignment name value =>
      simp only [resolveExpr] at h
      rcases Option.bind_eq_some.mp h with ⟨r1, h1, h2⟩
      exact (resolveExprF r value r1 h1).trans (resolveLocal_frame h2)
  | binary left op right =>
      simp only [resolveExpr] at h
      rcases Option.bind_eq_some.mp h with ⟨r1, h1, h2⟩
      exact (resolveExprF r left r1 h1).trans (resolveExprF r1 right r' h2)
  | call callee paren arguments =>
      simp only [resolveExpr] at h
      rcases Option.bind_eq_some.mp h with ⟨r1, h1, h2⟩
      exact (resolveExprF r callee r1 h1).trans
        (resolveExprsF r1 arguments r' h2)
  | get object name =>
      simp only [resolveExpr] at h
      exact resolveExprF r object r' h
  | grouping e1 =>
      simp only [resolveExpr] at h
      exact resolveExprF r e1 r' h
  | literal o =>
      simp only [resolveExpr, Option.some.injEq] at h
      exact h ▸ ResolverFrame.refl r
  | logical left op right =>
      simp only [resolveExpr] at h
      rcases Option.bind_eq_some.mp h with ⟨r1, h1, h2⟩
      exact (resolveExprF r left r1 h1).trans (resolveExprF r1 right r' h2)
  | set object name value =>
      simp only [resolveExpr] at h
      rcases Option.bind_eq_some.mp h with ⟨r1, h1, h2⟩
      exact (resolveExprF r value r1 h1).trans (resolveExprF r1 object r' h2)
  | superExpr keyword method =>
      simp only [resolveExpr] at h
      split at h
      · exact (stumble_frame ..).trans (resolveLocal_frame h)
      · split at h
        · exact (stumble_frame ..).trans (resolveLocal_frame h)
        · exact resolveLocal_frame h
  | thisExpr keyword =>
      simp only [resolveExpr] at h
      split at h
      · exact (stumble_frame ..).trans (resolveLocal_frame h)
      · exact resolveLocal_frame h
  | unary op right =>
      simp only [resolveExpr] at h
      exact resolveExprF r right r' h
  | varExpr name =>
      simp only [resolveExpr] at h
      split at h
      · exact (Option.some.inj h) ▸ ResolverFrame.refl r
      · rcases Option.bind_eq_some.mp h with ⟨⟨k, n⟩, -, h2⟩
        dsimp only at h2
        split at h2
        · exact (stumble_frame ..).trans (resolveLocal_frame h2)
        · exact resolveLocal_frame h2
termination_by sizeOf e

theorem resolveExprsF (r : Resolver) (l : List Expr) (r' : Resolver)
    (h : resolveExprs r l = some r') : ResolverFrame r r' := by
  cases l with
  | nil =>
      simp only [resolveExprs, Option.some.injEq] at h
      exact h ▸ ResolverFrame.refl r
  | cons e rest =>
      simp only [resolveExprs] at h
      rcases Option.bind_eq_some.mp h with ⟨r1, h1, h2⟩
      exact (resolveExprF r e r1 h1).trans (resolveExprsF r1 rest r' h2)
termination_by sizeOf l

theorem resolveStmtF (r : Resolver) (st : Stmt) (r' : Resolver)
    (h : resolveStmt r st = some r') : ResolverFrame r r' := by
  cases st with
  | block statements =>
      simp only [resolveStmt] at h
      rcases Option.map_eq_some'.mp h with ⟨r1, h1, hr⟩
      subst hr
      exact ((beginScope_frame r).trans
        (resolveStmtsF _ statements r1 h1)).trans (endScope_frame r1)
  | classStmt d =>
      simp only [resolveStmt] at h
      exact visitClassResF r d r' h
  | expression e =>
      simp only [resolveStmt] at h
      exact resolveExprF r e r' h
  | functionStmt d =>
      simp only [resolveStmt] at h
      rcases Option.bind_eq_some.mp h with ⟨r1, h1, h2⟩
      rcases Option.bind_eq_some.mp h2 with ⟨r2, h3, h4⟩
      exact ((declare_frame h1).trans (define_frame h3)).trans
        (resolveFunctionF r2 d .function r' h4)
  | ifStmt condition thenB elseB =>
      cases elseB with
      | some s =>
          simp only [resolveStmt] at h
          rcases Option.bind_eq_some.mp h with ⟨r1, h1, h2⟩
          rcases Option.bind_eq_some.mp h2 with ⟨r2, h3, h4⟩
          exact ((resolveExprF r condition r1 h1).trans
            (resolveStmtF r1 thenB r2 h3)).trans (resolveStmtF r2 s r' h4)
      | none =>
          simp only [resolveStmt] at h
          rcases Option.bind_eq_some.mp h with ⟨r1, h1, h2⟩
          rcases Option.bind_eq_some.mp h2 with ⟨r2, h3, h4⟩
          obtain rfl := Option.some.inj h4
          exact (resolveExprF r condition r1 h1).trans
            (resolveStmtF r1 thenB _ h3)
  | print e =>
      simp only [resolveStmt] at h
      exact resolveExprF r e r' h
  | returnStmt kw v =>
      simp only [resolveStmt] at h
      exact visitReturnF r kw v r' h
  | varStmt name initializer =>
      cases initializer with
      | some e =>
          simp only [resolveStmt] at h
          rcases Option.bind_eq_some.mp h with ⟨r1, h1, h2⟩
          rcases Option.bind_eq_some.mp h2 with ⟨r2, h3, h4⟩
          exact ((declare_frame h1).trans (resolveExprF r1 e r2 h3)).trans
            (define_frame h4)
      | none =>
          simp only [resolveStmt] at h
          rcases Option.bind_eq_some.mp h with ⟨r1, h1, h2⟩
          rcases Option.bind_eq_some.mp h2 with ⟨r2, h3, h4⟩
          cases Option.some.inj h3
          exact (declare_frame h1).trans (define_frame h4)
  | whileStmt condition body =>
      simp only [resolveStmt] at h
      rcases Option.bind_eq_some.mp h with ⟨r1, h1, h2⟩
      exact (resolveExprF r condition r1 h1).trans
        (resolveStmtF r1 body r' h2)
termination_by sizeOf st

theorem visitReturnF (r : Resolver) (kw : Token) (v : Option Expr)
    (r' : Resolver) (h : visitReturn r kw v = some r') :
    ResolverFrame r r' := by
  unfold visitReturn at h
  cases v with
  | some object =>
      dsimp only at h
      split at h
      · split at h
        · exact ((stumble_frame ..).trans (stumble_frame ..)).trans
            (resolveExprF _ object r' h)
        · exact (stumble_frame ..).trans (resolveExprF _ object r' h)
      · split at h
        · exact (stumble_frame ..).trans (resolveExprF _ object r' h)
        · exact resolveExprF _ object r' h
  | none =>
      dsimp only at h
      split at h
      · cases Option.some.inj h
        exact stumble_frame ..
      · cases Option.some.inj h
        exact ResolverFrame.refl r

theorem resolveFunctionF (r : Resolver) (d : FunctionDef)
    (ctx : FunctionCtx) (r' : Resolver)
    (h : resolveFunction r d ctx = some r') : ResolverFrame r r' := by
  cases d with
  | mk nameTok parameters body =>
      simp only [resolveFunction] at h
      rcases Option.bind_eq_some.mp h with ⟨r2, h1, h2⟩
      rcases Option.map_eq_some'.mp h2 with ⟨r3, h3, hr⟩
      subst hr
      have fA := declareDefineParams_frame parameters h1
      have fB := resolveStmtsF r2 body r3 h3
      refine ⟨rfl, ?_, ?_⟩
      · obtain ⟨l1, hd1⟩ := fA.2.1
        obtain ⟨l2, hd2⟩ := fB.2.1
        refine ⟨l1 ++ l2, ?_⟩
        show r3.diags = r.diags ++ (l1 ++ l2)
        rw [hd2, hd1]
        simp [Resolver.beginScope, List.append_assoc]
      · intro hs
        exact fB.2.2 (fA.2.2 hs)
termination_by sizeOf d

theorem resolveMethodsF (r : Resolver) (ms : List FunctionDef)
    (r' : Resolver) (h : resolveMethods r ms = some r') :
    ResolverFrame r r' := by
  cases ms with
  | nil =>
      simp only [resolveMethods, Option.some.injEq] at h
      exact h ▸ ResolverFrame.refl r
  | cons m rest =>
      simp only [resolveMethods] at h
      rcases Option.bind_eq_some.mp h with ⟨⟨k, n⟩, -, h2⟩
      dsimp only at h2
      rcases Option.bind_eq_some.mp h2 with ⟨r1, h3, h4⟩
      exact (resolveFunctionF r m _ r1 h3).trans
        (resolveMethodsF r1 rest r' h4)
termination_by sizeOf ms

theorem visitClassResF (r : Resolver) (d : ClassDef) (r' : Resolver)
    (h : visitClassRes r d = some r') : ResolverFrame r r' := by
  cases d with
  | mk className parentName methodDefs =>
      cases parentName with
      | none =>
          simp only [visitClassRes] at h
          rcases Option.bind_eq_some.mp h with ⟨r1, h1, h2⟩
          rcases Option.bind_eq_some.mp h2 with ⟨r2, h3, h4⟩
          rcases Option.bind_eq_some.mp h4 with ⟨r5, h5, h6⟩
          rcases Option.map_eq_some'.mp h6 with ⟨r8, h7, hr⟩
          subst hr
          cases Option.some.inj h5
          have f0 : ResolverFrame r { r with classScope := .cls } :=
            ⟨rfl, ⟨[], by simp⟩, id⟩
          have fchain := ((f0.trans (declare_frame h1)).trans
            (define_frame h3)).trans
            (((beginScope_frame _).trans (addToScope_frame ..)).trans
              (resolveMethodsF _ methodDefs r8 h7))
          exact fchain.trans ⟨rfl, ⟨[], by simp [Resolver.endScope]⟩, id⟩
      | some parent =>
          simp only [visitClassRes] at h
          rcases Option.bind_eq_some.mp h with ⟨r1, h1, h2⟩
          rcases Option.bind_eq_some.mp h2 with ⟨r2, h3, h4⟩
          rcases Option.bind_eq_some.mp h4 with ⟨r5, h5, h6⟩
          rcases Option.map_eq_some'.mp h6 with ⟨r8, h7, hr⟩
          subst hr
          have f0 : ResolverFrame r { r with classScope := .cls } :=
            ⟨rfl, ⟨[], by simp⟩, id⟩
          have f5 : ResolverFrame r2 r5 := by
            rcases Option.bind_eq_some.mp h5 with ⟨⟨k1, n1⟩, -, h5b⟩
            dsimp only at h5b
            rcases Option.bind_eq_some.mp h5b with ⟨⟨k2, n2⟩, -, h5c⟩
            dsimp only at h5c
            have f3 : ResolverFrame r2 { r2 with classScope := .subclass } :=
              ⟨rfl, ⟨[], by simp⟩, id⟩
            split at h5c
            · exact f3.trans ((stumble_frame ..).trans
                (resolveLocal_frame h5c))
            · exact f3.trans (resolveLocal_frame h5c)
          have fchain := ((f0.trans (declare_frame h1)).trans
            (define_frame h3)).trans (f5.trans
              ((((beginScope_frame r5).trans (addToScope_frame ..)).trans
                ((beginScope_frame _).trans (addToScope_frame ..))).trans
                (resolveMethodsF _ methodDefs r8 h7)))
          exact fchain.trans
            ⟨rfl, ⟨[], by simp [Resolver.endScope]⟩, id⟩
termination_by sizeOf d

theorem resolveStmtsF (r : Resolver) (l : List Stmt) (r' : Resolver)
    (h : resolveStmts r l = some r') : ResolverFrame r r' := by
  cases l with
  | nil =>
      simp only [resolveStmts, Option.some.injEq] at h
      exact h ▸ ResolverFrame.refl r
  | cons s rest =>
      simp only [resolveStmts] at h
      rcases Option.bind_eq_some.mp h with ⟨r1, h1, h2⟩
      exact (resolveStmtF r s r1 h1).trans (resolveStmtsF r1 rest r' h2)
termination_by sizeOf l

end

/-- `resolve_statements` over an appended list is sequential
composition. -/
theorem resolveStmts_append (r : Resolver) (l m : List Stmt) :
    resolveStmts r (l ++ m)
      = (resolveStmts r l).bind fun r1 => resolveStmts r1 m := by
  induction l generalizing r with
  | nil => simp [resolveStmts]
  | cons s rest ih =>
      simp only [List.cons_append, resolveStmts]
      cases resolveStmt r s with
      | none => simp
      | some r1 => simp [ih r1]

/-- `visit_return` in function context *none* stumbles with the top-level
diagnostic, whatever the optional value. -/
theorem visitReturn_global {r r' : Resolver} {kw : Token} {v : Option Expr}
    (hfs : r.functionScope = .global) (h : visitReturn r kw v = some r') :
    r'.stumbled = true
    ∧ (kw, "Can't return from top-level code.") ∈ r'.diags := by
  unfold visitReturn at h
  rw [hfs] at h
  simp only [beq_self_eq_true, if_true] at h
  cases v with
  | none =>
      dsimp only at h
      obtain rfl := Option.some.inj h
      exact ⟨rfl, List.mem_append_right _ (List.mem_singleton.mpr rfl)⟩
  | some object =>
      dsimp only at h
      rw [show (r.stumble kw
          "Can't return from top-level code.").functionScope
            = FunctionCtx.global from hfs] at h
      simp only [show (FunctionCtx.global == FunctionCtx.initializer)
          = false from rfl, if_false] at h
      have fr := resolveExprF _ object r' h
      refine ⟨fr.2.2 rfl, fr.mem_diags ?_⟩
      exact List.mem_append_right _ (List.mem_singleton.mpr rfl)

/-- C9: (1) resolving any program with a top-level `return` statement — in
function context *none* — reports `Can't return from top-level code.`,
leaves the resolver stumbled, and consuming it yields the `Resolve` error
class; (2) `visit_return` with a value in *initializer* context reports
`Can't return a value from an initializer.` and stumbles; (3) a bare
`return;` in initializer context is accepted unchanged. -/
theorem resolver_return_context_errors :
    (∀ (l rest : List Stmt) (kw : Token) (v : Option Expr) (rF : Resolver),
        resolveStmts Resolver.new (l ++ .returnStmt kw v :: rest) = some rF →
        rF.stumbled = true
        ∧ (kw, "Can't return from top-level code.") ∈ rF.diags
        ∧ rF.consume = .error .resolve)
    ∧ (∀ (r : Resolver) (kw : Token) (obj : Expr) (r' : Resolver),
        r.functionScope = .initializer →
        visitReturn r kw (some obj) = some r' →
        r'.stumbled = true
        ∧ (kw, "Can't return a value from an initializer.") ∈ r'.diags)
    ∧ ∀ (r : Resolver) (kw : Token),
        r.functionScope = .initializer → visitReturn r kw none = some r := by
  refine ⟨?_, ?_, ?_⟩
  · intro l rest kw v rF h
    rw [resolveStmts_append] at h
    rcases Option.bind_eq_some.mp h with ⟨r1, h1, h2⟩
    have hfs : r1.functionScope = .global := (resolveStmtsF _ l r1 h1).1
    simp only [resolveStmts] at h2
    rcases Option.bind_eq_some.mp h2 with ⟨r2, h3, h4⟩
    simp only [resolveStmt] at h3
    have key := visitReturn_global hfs h3
    have fR := resolveStmtsF r2 rest rF h4
    have hst : rF.stumbled = true := fR.2.2 key.1
    refine ⟨hst, fR.mem_diags key.2, ?_⟩
    unfold Resolver.consume
    rw [hst]
    rfl
  · intro r kw obj r' hfs h
    unfold visitReturn at h
    rw [hfs] at h
    simp only [show (FunctionCtx.initializer == FunctionCtx.global)
        = false from rfl, Bool.false_eq_true, if_false] at h
    rw [hfs] at h
    simp only [beq_self_eq_true, if_true] at h
    have fr := resolveExprF _ obj r' h
    refine ⟨fr.2.2 rfl, fr.mem_diags ?_⟩
    exact List.mem_append_right _ (List.mem_singleton.mpr rfl)
  · intro r kw hfs
    unfold visitReturn
    rw [hfs]
    rfl

/-- The keyword token of a `return` statement. -/
def kwReturn : Token := ⟨.return', "return", 1⟩

/-- C9 witness: the accepted bare `return;` clause applied in a concrete
initializer-context resolver state, so every hypothesis is discharged at a
concrete input. -/
theorem resolver_return_context_witness :
    visitReturn ⟨[], [], .initializer, .cls, false, []⟩ kwReturn none
      = some ⟨[], [], .initializer, .cls, false, []⟩ :=
  resolver_return_context_errors.2.2 ⟨[], [], .initializer, .cls, false, []⟩
    kwReturn rfl

end Rlox
